import Mathlib

/-!
Verification development for the `confluence-to-markdown` converter.

The definitions below are a shallow embedding of the repository's JavaScript
sources.  The authoritative conversion path is:

  `src/modules/markdown-generator.js` (`generateMarkdown`)
    → `src/modules/content-processor.js` (`processElementContent`,
      `shouldBeIgnored`)
    → `src/modules/element-processors.js` (the per-element processors,
      the table classifier/renderers)
    → `src/modules/utilities.js` (`slugify`, `cleanupMarkdown`,
      `fixBrokenTables`).

DOM nodes are modelled as a tree (`Node`); each element carries a numeric
`ref` standing for its JavaScript object identity, used by the processed set
(`Set` of nodes in JS) and by the id-assignment side effects.  The converter's
recursive dispatch is modelled with an explicit fuel argument so that the
functions are total and computable; fuel `0` returns the neutral result and is
never reached for any finite tree when the fuel exceeds the tree depth.

JavaScript regular-expression passes (`cleanupMarkdown` and friends) are
embedded through a small backtracking regex engine; each source regex is
transcribed into a pattern value and applied with JS `String.replace`
semantics (global and multiline flags, leftmost match, greedy/lazy
quantifiers, capture groups, backreferences, lookahead).
-/

namespace CTM

/-! ## JavaScript string primitives -/

/-- JS whitespace class (`\s`, also used by `String.prototype.trim`):
space, tab, LF, VT, FF, CR and NBSP (the common cases for this corpus). -/
def jsWs (c : Char) : Bool :=
  c = ' ' || c = '\t' || c = '\n' || c = '\r' ||
  c.toNat = 11 || c.toNat = 12 || c.toNat = 160

/-- Drop a trailing run of characters satisfying `p`. -/
def dropTrailing (p : Char → Bool) (l : List Char) : List Char :=
  (l.reverse.dropWhile p).reverse

/-- JS `String.prototype.trim` (also the effect of `replace(/^\s+|\s+$/g,"")`). -/
def trimJS (s : String) : String :=
  String.mk (dropTrailing jsWs (s.toList.dropWhile jsWs))

/-- JS string truthiness: the empty string is falsy. -/
def truthy (s : String) : Bool := s ≠ ""

/-- Replace every occurrence of the single character `c` by `repl`
(JS `replace(/c/g, repl)` for a one-character pattern). -/
def replCharL (c : Char) (repl : List Char) : List Char → List Char
  | [] => []
  | d :: ds => (if d = c then repl else [d]) ++ replCharL c repl ds

def replChar (c : Char) (repl : String) (s : String) : String :=
  String.mk (replCharL c repl.toList s.toList)

/-- Replace every run of JS whitespace by `rep`
(JS `replace(/\s+/g, rep)`). -/
def replaceWsRuns (rep : String) (s : String) : String :=
  String.mk (go false s.toList)
where
  go : Bool → List Char → List Char
  | _, [] => []
  | inRun, c :: cs =>
    if jsWs c then
      if inRun then go true cs else rep.toList ++ go true cs
    else c :: go false cs

/-- Replace every run of `'-'` by a single `'-'` (JS `replace(/[-]+/g, "-")`). -/
def collapseDashes (s : String) : String :=
  String.mk (go false s.toList)
where
  go : Bool → List Char → List Char
  | _, [] => []
  | inRun, c :: cs =>
    if c = '-' then
      if inRun then go true cs else '-' :: go true cs
    else c :: go false cs

/-- Lowercase / uppercase a string (ASCII, as used by this corpus). -/
def toLowerStr (s : String) : String := String.mk (s.toList.map Char.toLower)

def toUpperStr (s : String) : String := String.mk (s.toList.map Char.toUpper)

/-- Split on a single separator character (JS `split("c")`). -/
def splitChar (sep : Char) : List Char → List (List Char)
  | [] => [[]]
  | c :: cs =>
    match splitChar sep cs with
    | r :: rs => if c = sep then [] :: r :: rs else (c :: r) :: rs
    | [] => [[]]

def splitCharStr (sep : Char) (s : String) : List String :=
  (splitChar sep s.toList).map String.mk

/-- Split at every character satisfying `p`, dropping empty pieces
(the effect of `classList` tokenisation). -/
def splitPredStr (p : Char → Bool) (s : String) : List String :=
  ((go s.toList).map String.mk).filter (· ≠ "")
where
  go : List Char → List (List Char)
  | [] => [[]]
  | c :: cs =>
    match go cs with
    | r :: rs => if p c then [] :: r :: rs else (c :: r) :: rs
    | [] => [[]]

/-- Substring test (JS `String.prototype.includes`). -/
def containsSub (s sub : String) : Bool :=
  if sub = "" then true else go s.toList
where
  go : List Char → Bool
  | [] => false
  | c :: cs => sub.toList.isPrefixOf (c :: cs) || go cs

/-- JS `String.prototype.startsWith`. -/
def startsWithStr (s pre : String) : Bool := pre.toList.isPrefixOf s.toList

/-- JS `String.prototype.endsWith`. -/
def endsWithStr (s suf : String) : Bool := suf.toList.isSuffixOf s.toList

/-- JS `parseInt(s, 10)`: skip leading whitespace, optional sign, then a
decimal-digit prefix; `none` models `NaN` (no digits found). -/
def parseIntJS (s : String) : Option Int :=
  let l := s.toList.dropWhile jsWs
  match l with
  | '-' :: rest => (digitsVal rest).map (fun n => -(n : Int))
  | '+' :: rest => (digitsVal rest).map (fun n => (n : Int))
  | rest => (digitsVal rest).map (fun n => (n : Int))
where
  digitsVal (l : List Char) : Option Nat :=
    let ds := l.takeWhile (·.isDigit)
    if ds = [] then none
    else some (ds.foldl (fun a c => a * 10 + (c.toNat - 48)) 0)

/-- JS `Math.max` on possibly-NaN numbers (`none` = NaN, which poisons). -/
def jsMax : Option Int → Option Int → Option Int
  | some a, some b => some (max a b)
  | _, _ => none

/-- Addition on possibly-NaN numbers (`none` = NaN, which poisons). -/
def jsAdd : Option Int → Option Int → Option Int
  | some a, some b => some (a + b)
  | _, _ => none

/-- JS `<` where either side may be NaN (`none`): any comparison with NaN
is false. -/
def jsLt (a b : Option Int) : Bool :=
  match a, b with
  | some x, some y => x < y
  | _, _ => false

/-! ## The DOM model

A node is a text node, a comment node, or an element.  An element carries a
`ref : Nat` modelling its JavaScript object identity (distinct elements of a
document have distinct refs), its tag name (stored uppercased, as exposed by
JSDOM's `tagName` for HTML documents), its attribute list and its children. -/

inductive Node where
  | text (s : String)
  | comment (s : String)
  | elem (ref : Nat) (tag : String) (attrs : List (String × String)) (children : List Node)

instance : Inhabited Node := ⟨.text ""⟩

/-- `nodeType`: 1 = element, 3 = text, 8 = comment. -/
def Node.nodeType : Node → Nat
  | .text _ => 3
  | .comment _ => 8
  | .elem _ _ _ _ => 1

def Node.refOf : Node → Nat
  | .elem r _ _ _ => r
  | _ => 0

/-- `tagName` as a string; empty for non-elements (JS `undefined`). -/
def Node.tagOf : Node → String
  | .elem _ t _ _ => t
  | _ => ""

def Node.childrenOf : Node → List Node
  | .elem _ _ _ cs => cs
  | _ => []

/-- `getAttribute`: `none` models JS `null` (attribute absent). -/
def Node.getAttr : Node → String → Option String
  | .elem _ _ attrs _, k => attrs.lookup k
  | _, _ => none

/-- `element.className` (empty string when the attribute is absent). -/
def Node.classNameOf (n : Node) : String := (n.getAttr "class").getD ""

/-- `element.classList`, split on whitespace runs. -/
def Node.classListOf (n : Node) : List String :=
  splitPredStr jsWs n.classNameOf

/-- `element.classList.contains c`. -/
def Node.classContains (n : Node) (c : String) : Bool :=
  n.classListOf.contains c

/-- Read a property from the inline `style` attribute (`element.style.prop`);
returns `""` when unset, like the CSSOM.  Declarations are split on `;`,
property and value trimmed, later declarations winning. -/
def Node.styleGet (n : Node) (prop : String) : String :=
  (splitCharStr ';' ((n.getAttr "style").getD "")).foldl
    (fun acc decl =>
      match splitCharStr ':' decl with
      | k :: v :: rest =>
        if trimJS k = prop then trimJS (String.intercalate ":" (v :: rest)) else acc
      | _ => acc) ""

/-- `Node.textContent` of an element: concatenation of all text descendants
(comments excluded); for a text node its data. -/
def Node.textContent : Node → String
  | .text s => s
  | .comment _ => ""
  | .elem _ _ _ cs => go cs
where
  go : List Node → String
  | [] => ""
  | c :: cs => c.textContent ++ go cs

/-- `textContent` read directly on any node: a comment node's own
`textContent` is its data. -/
def Node.ownTextContent : Node → String
  | .comment s => s
  | n => n.textContent

/-- All element descendants of a node in document (preorder) order, each
paired with its ancestor chain (nearest first; the chain extends `anc`,
the ancestors of `n` itself). -/
def descElems (anc : List Node) : Node → List (Node × List Node)
  | .elem r t a cs => go ((Node.elem r t a cs) :: anc) cs
  | _ => []
where
  go (anc' : List Node) : List Node → List (Node × List Node)
  | [] => []
  | c :: cs =>
    (match c with
     | .elem r t a ks => (Node.elem r t a ks, anc') :: descElems anc' (.elem r t a ks)
     | _ => []) ++ go anc' cs

/-- `querySelector`-style first element descendant satisfying `p`. -/
def firstDesc (anc : List Node) (n : Node) (p : Node → Bool) : Option (Node × List Node) :=
  (descElems anc n).find? (fun x => p x.1)

/-- `querySelectorAll`-style list of element descendants satisfying `p`. -/
def allDesc (anc : List Node) (n : Node) (p : Node → Bool) : List (Node × List Node) :=
  (descElems anc n).filter (fun x => p x.1)

/-! ## Converter state

`processedElements` is the JS `Set` of already-converted nodes (held as the
refs of its members); `ids` records the id-assignment side effects performed
on the document tree (`ref ↦ assigned id`), overriding the static `id`
attribute. -/

structure St where
  processed : List Nat
  ids : List (Nat × String)

/-- `processedElements.add(el)`. -/
def St.addProcessed (st : St) (r : Nat) : St :=
  { st with processed := if st.processed.contains r then st.processed else r :: st.processed }

/-- The current `element.id` of a node, honouring assigned overrides
(empty string when absent, as in the DOM). -/
def currentId (ids : List (Nat × String)) (n : Node) : String :=
  match n with
  | .elem r _ attrs _ => ((ids.lookup r).getD ((attrs.lookup "id").getD ""))
  | _ => ""

/-! ## `shouldBeIgnored` (src/modules/content-processor.js, lines 224-251)

The traversal-scope check at lines 242-247 reads
`parentPath.includes("MAIN_CONTENT_ROOT")` but both branches fall through to
(or return) `false`, so the result does not depend on the paths. -/

def globallyExcludeClasses : List String :=
  ["breadcrumb-section", "footer", "aui-nav", "pageSectionHeader", "hidden",
   "navigation", "screenreader-only", "hidden-xs", "hidden-sm", "aui-icon",
   "aui-avatar-inner", "expand-control"]

def globallyExcludeIds : List String :=
  ["breadcrumbs", "footer", "navigation", "sidebar", "page-sidebar", "header",
   "actions", "likes-and-labels-container", "page-metadata-secondary"]

def shouldBeIgnored (ids : List (Nat × String)) (element : Node)
    (currentPath parentPath : String) : Bool :=
  -- if (!element || !element.tagName) return true
  if element.tagOf = "" then true
  -- if (element.nodeType === 8) return true  (comments: already caught above)
  else if element.nodeType = 8 then true
  else
    let tagName := toUpperStr element.tagOf
    if tagName = "SCRIPT" || tagName = "STYLE" || tagName = "NOSCRIPT" || tagName = "BUTTON" then true
    else if element.getAttr "aria-hidden" = some "true" then true
    else if element.styleGet "display" = "none" || element.styleGet "visibility" = "hidden" then true
    else
      -- element.className.split(" ") against the global class denylist
      let classNames := splitCharStr ' ' element.classNameOf
      if element.classNameOf ≠ "" && classNames.any (fun cls => globallyExcludeClasses.contains cls) then true
      else if truthy (currentId ids element) && globallyExcludeIds.contains (currentId ids element) then true
      else if ¬ (containsSub parentPath "MAIN_CONTENT_ROOT") then
        -- "More aggressive exclusions if not in main content." — empty branch
        false
      else
        -- element is in MAIN_CONTENT_ROOT: not ignored by default rules
        false

/-- The drop conditions as listed (comment node or tag-less, denied tag,
`aria-hidden`, hidden inline style, denylisted class or id) with no
traversal-scope clause.  Used to state the amended form of C5. -/
def dropConditions (ids : List (Nat × String)) (element : Node) : Bool :=
  element.tagOf = "" ||
  element.nodeType = 8 ||
  (let t := toUpperStr element.tagOf
   t = "SCRIPT" || t = "STYLE" || t = "NOSCRIPT" || t = "BUTTON") ||
  element.getAttr "aria-hidden" = some "true" ||
  element.styleGet "display" = "none" || element.styleGet "visibility" = "hidden" ||
  (element.classNameOf ≠ "" &&
    (splitCharStr ' ' element.classNameOf).any (fun cls => globallyExcludeClasses.contains cls)) ||
  (truthy (currentId ids element) && globallyExcludeIds.contains (currentId ids element))

/-! ## `slugify` (src/modules/utilities.js, lines 357-367) -/

/-- A `\w` character: `[A-Za-z0-9_]`. -/
def isWordChar (c : Char) : Bool :=
  ('a' ≤ c && c ≤ 'z') || ('A' ≤ c && c ≤ 'Z') || ('0' ≤ c && c ≤ '9') || c = '_'

def slugify (text : String) : String :=
  if text = "" then ""
  else
    let lowered := toLowerStr text
    -- .replace(/[^\w\s-]/g, '')
    let kept := String.mk (lowered.toList.filter (fun c => isWordChar c || jsWs c || c = '-'))
    -- .replace(/\s+/g, '-')
    let dashed := replaceWsRuns "-" kept
    -- .replace(/-+/g, '-')
    let collapsed := collapseDashes dashed
    -- .trim()
    let trimmed := trimJS collapsed
    -- .replace(/^-+|-+$/g, '')
    String.mk (dropTrailing (· = '-') (trimmed.toList.dropWhile (· = '-')))

/-- Modelled from the spec: the slug derivation as claim C7 words it —
the trimmed heading text with diacritics stripped (identity on ASCII text),
non-alphanumeric characters collapsed to single hyphens, leading/trailing
hyphens trimmed, and a generic placeholder when the result is empty.
It is compared against the source's `slugify` to settle C7. -/
def slugClaimC7 (text : String) : String :=
  let t := trimJS text
  let hyphened := String.mk (go false t.toList)
  let core := String.mk (dropTrailing (· = '-') (hyphened.toList.dropWhile (· = '-')))
  if core = "" then "section" else core
where
  go : Bool → List Char → List Char
  | _, [] => []
  | inRun, c :: cs =>
    if c.isAlphanum then c :: go false cs
    else if inRun then go true cs
    else '-' :: go true cs

/-! ## `safeTableCellContent` (src/modules/element-processors.js, lines 511-519) -/

def safeTableCellContent (content : String) : String :=
  if content = "" then " "
  else
    -- content.trim().replace(/\n/g," ").replace(/\|/g,"\\|").replace(/^\s+|\s+$/g,"")
    let a := trimJS content
    let b := replChar '\n' " " a
    let c := replChar '|' "\\|" b
    String.mk (dropTrailing jsWs (c.toList.dropWhile jsWs))

/-- Scanner for "every `'|'` is immediately preceded by a backslash":
`prev` is the previous character (none at the start). -/
def pipesOK (prev : Option Char) : List Char → Bool
  | [] => true
  | c :: cs => (decide (c ≠ '|') || decide (prev = some '\\')) && pipesOK (some c) cs


/-! ## A small JS-style regular-expression engine

`cleanupMarkdown`, `cleanupSectionContent` and the section-title fixes are
regex passes in the source; each pattern is transcribed literally into an
`RAtom` list and applied with JS `String.replace` semantics: leftmost match,
global (`g`) scanning, multiline (`m`) anchors, greedy and lazy quantifiers,
numbered capture groups, backreferences and lookahead. -/

inductive RAtom where
  | chr (c : Char)
  | cls (neg : Bool) (single : List Char) (ranges : List (Char × Char)) (ws word digit : Bool)
  | dot
  | grp (idx : Nat) (sub : List RAtom)
  | look (sub : List RAtom)
  | bref (idx : Nat)
  | bol
  | eol
  | q (mn : Nat) (mx : Option Nat) (lazy : Bool) (atom : RAtom)

def clsMatch (neg : Bool) (single : List Char) (ranges : List (Char × Char))
    (ws word digit : Bool) (d : Char) : Bool :=
  let hit := single.contains d || ranges.any (fun r => r.1 ≤ d && d ≤ r.2) ||
             (ws && jsWs d) || (word && isWordChar d) || (digit && d.isDigit)
  if neg then !hit else hit

/-- Most-recent-wins capture store (group index to captured substring). -/
def capGet (caps : List (Nat × String)) (i : Nat) : String := (caps.lookup i).getD ""

mutual

/-- Match a sequence of atoms at `pos`, continuation-passing; the fuel bounds
the backtracking depth and is chosen large enough for every concrete input. -/
def mAtoms (fuel : Nat) (ml : Bool) (input : List Char) (re : List RAtom) (pos : Nat)
    (caps : List (Nat × String))
    (k : Nat → List (Nat × String) → Option (Nat × List (Nat × String))) :
    Option (Nat × List (Nat × String)) :=
  match fuel with
  | 0 => none
  | f+1 =>
    match re with
    | [] => k pos caps
    | a :: rest => mAtom f ml input a pos caps (fun p c => mAtoms f ml input rest p c k)
termination_by structural fuel

def mAtom (fuel : Nat) (ml : Bool) (input : List Char) (a : RAtom) (pos : Nat)
    (caps : List (Nat × String))
    (k : Nat → List (Nat × String) → Option (Nat × List (Nat × String))) :
    Option (Nat × List (Nat × String)) :=
  match fuel with
  | 0 => none
  | f+1 =>
    match a with
    | .chr c =>
      match input.get? pos with
      | some d => if d = c then k (pos + 1) caps else none
      | none => none
    | .cls neg single ranges ws word digit =>
      match input.get? pos with
      | some d => if clsMatch neg single ranges ws word digit d then k (pos + 1) caps else none
      | none => none
    | .dot =>
      match input.get? pos with
      | some d => if d = '\n' then none else k (pos + 1) caps
      | none => none
    | .bol =>
      if pos = 0 || (ml && input.get? (pos - 1) = some '\n') then k pos caps else none
    | .eol =>
      if pos = input.length || (ml && input.get? pos = some '\n') then k pos caps else none
    | .grp i sub =>
      mAtoms f ml input sub pos caps
        (fun p c => k p ((i, String.mk ((input.drop pos).take (p - pos))) :: c))
    | .look sub =>
      match mAtoms f ml input sub pos caps (fun p c => some (p, c)) with
      | some (_, c) => k pos c
      | none => none
    | .bref i =>
      let s := (capGet caps i).toList
      if s.isPrefixOf (input.drop pos) then k (pos + s.length) caps else none
    | .q mn mx lz sub => mQuant f ml input mn mx lz sub pos caps k
termination_by structural fuel

def mQuant (fuel : Nat) (ml : Bool) (input : List Char) (mn : Nat) (mx : Option Nat)
    (lz : Bool) (sub : RAtom) (pos : Nat) (caps : List (Nat × String))
    (k : Nat → List (Nat × String) → Option (Nat × List (Nat × String))) :
    Option (Nat × List (Nat × String)) :=
  match fuel with
  | 0 => none
  | f+1 =>
    let canMore := mx ≠ some 0
    let tryMore := fun (_ : Unit) =>
      if canMore then
        mAtom f ml input sub pos caps (fun p c =>
          if p = pos then none   -- an empty repetition makes no progress (ES semantics)
          else mQuant f ml input (mn - 1) (mx.map (· - 1)) lz sub p c k)
      else none
    if mn > 0 then tryMore ()
    else if lz then
      match k pos caps with
      | some r => some r
      | none => tryMore ()
    else
      match tryMore () with
      | some r => some r
      | none => k pos caps
termination_by structural fuel

end

def matchAt (fuel : Nat) (ml : Bool) (input : List Char) (re : List RAtom) (pos : Nat) :
    Option (Nat × List (Nat × String)) :=
  mAtoms fuel ml input re pos [] (fun p c => some (p, c))

/-- Fuel bound for matching at one position of an input of length `n`. -/
def matchFuel (n : Nat) : Nat := (n + 8) * (n + 8) * 64 + 4096

/-- The replacement scan of JS `String.prototype.replace`: at each position
try the pattern; on a match emit `f whole caps` and continue after it (for a
global regex), advancing one character over empty matches. -/
def replaceGo (ml glob : Bool) (re : List RAtom) (f : String → List (Nat × String) → String)
    (input : List Char) : Nat → Nat → String → String
  | 0, pos, acc => acc ++ String.mk (input.drop pos)
  | steps+1, pos, acc =>
    if pos > input.length then acc
    else
      match matchAt (matchFuel input.length) ml input re pos with
      | some (e, caps) =>
        let rep := f (String.mk ((input.drop pos).take (e - pos))) caps
        if ¬ glob then acc ++ rep ++ String.mk (input.drop e)
        else if e = pos then
          match input.get? pos with
          | some c => replaceGo ml glob re f input steps (pos + 1) (acc ++ rep ++ String.mk [c])
          | none => acc ++ rep
        else replaceGo ml glob re f input steps e (acc ++ rep)
      | none =>
        match input.get? pos with
        | some c => replaceGo ml glob re f input steps (pos + 1) (acc ++ String.mk [c])
        | none => acc

/-- JS `s.replace(re, f)` for a regex with the `g` flag (`ml` = the `m` flag). -/
def jsReplace (ml : Bool) (re : List RAtom) (f : String → List (Nat × String) → String)
    (s : String) : String :=
  replaceGo ml true re f s.toList (s.length + 2) 0 ""

/-- JS `s.replace(re, f)` for a regex without the `g` flag (first match only). -/
def jsReplaceFirst (ml : Bool) (re : List RAtom)
    (f : String → List (Nat × String) → String) (s : String) : String :=
  replaceGo ml false re f s.toList (s.length + 2) 0 ""

/-- A replacement template: literal pieces and `$n` capture references. -/
inductive TPiece where
  | lit (s : String)
  | cap (i : Nat)

def tmplFn (ps : List TPiece) : String → List (Nat × String) → String :=
  fun _ caps =>
    ps.foldl (fun acc p => acc ++ (match p with | .lit s => s | .cap i => capGet caps i)) ""

/-! Pattern-building shorthands used by the transcriptions. -/

def litRE (s : String) : List RAtom := s.toList.map RAtom.chr

def wsA : RAtom := .cls false [] [] true false false
def nwsA : RAtom := .cls true [] [] true false false
def notNlA : RAtom := .cls true ['\n'] [] false false false
def clsIn (cs : List Char) : RAtom := .cls false cs [] false false false
def clsNotIn (cs : List Char) : RAtom := .cls true cs [] false false false
def rngA (a b : Char) : RAtom := .cls false [] [(a, b)] false false false
def starA (a : RAtom) : RAtom := .q 0 none false a
def plusA (a : RAtom) : RAtom := .q 1 none false a
def lazyPlusA (a : RAtom) : RAtom := .q 1 none true a
def lazyStarA (a : RAtom) : RAtom := .q 0 none true a
def repA (mn : Nat) (mx : Option Nat) (a : RAtom) : RAtom := .q mn mx false a

/-- Shorthand: a `gm`-flagged template replace. -/
def gmT (re : List RAtom) (ps : List TPiece) (s : String) : String :=
  jsReplace true re (tmplFn ps) s

/-- Shorthand: a `g`-flagged template replace. -/
def gT (re : List RAtom) (ps : List TPiece) (s : String) : String :=
  jsReplace false re (tmplFn ps) s

/-! ## `cleanupMarkdown` (src/modules/utilities.js, lines 12-152)

Each statement below transcribes one `result.replace(...)` of the source, in
source order.  The `try`/`catch` wrapper is dropped: every pass is total. -/

set_option maxHeartbeats 2000000 in
def cleanupMarkdown (markdown : String) : String :=
  if markdown = "" then ""
  else
    let r := markdown
    -- FIRST PASS: specific patterns for question headings
    let r := gmT ([.bol] ++ litRE "## - ### ") [.lit "- ### "] r
    let r := gmT ([.bol] ++ litRE "# - ### ") [.lit "- ### "] r
    let r := gmT ([.bol, repA 1 (some 6) (.chr '#')] ++ litRE " - ") [.lit "- "] r
    -- SECOND PASS: heading patterns, three iterations
    let fixHeadings := fun (s : String) =>
      let s := gmT ([.bol] ++ litRE "# # " ++ [.grp 1 [plusA notNlA], .eol]) [.lit "## ", .cap 1] s
      let s := gmT ([.bol] ++ litRE "# ## " ++ [.grp 1 [plusA notNlA], .eol]) [.lit "## ", .cap 1] s
      let s := gmT ([.bol] ++ litRE "## # " ++ [.grp 1 [plusA notNlA], .eol]) [.lit "## ", .cap 1] s
      gmT [.bol, .grp 1 [plusA (.chr '#')], plusA wsA, .grp 2 [plusA (.chr '#')], plusA wsA]
        [.cap 1, .lit " "] s
    let r := fixHeadings (fixHeadings (fixHeadings r))
    -- THIRD PASS: other specialized cleanup
    let r := gmT [plusA wsA, .chr '{', .chr '#', lazyStarA .dot, .chr '}', .eol] [] r
    let r := gmT [.bol, .chr '#', .chr ' ',
                  .grp 1 [rngA 'A' 'Z', lazyPlusA (clsNotIn ['#', '\n'])], .eol]
                 [.lit "## ", .cap 1] r
    let r := gmT ([.bol] ++ litRE "- - ") [.lit "  - "] r
    let r := gmT ([.bol] ++ litRE "- # ") [.lit "- "] r
    let r := gmT [.bol, .grp 1 [repA 3 none (.chr '#')], plusA wsA] [.lit "### "] r
    -- FOURTH PASS: standard cleanup
    let r := gT (litRE "\r\n") [.lit "\n"] r
    let r := gT [repA 4 none (.chr '\n')] [.lit "\n\n\n"] r
    let r := gT (litRE "```" ++ [.grp 1 [starA (clsNotIn ['`', '\n'])], .chr '\n', .chr '\n'])
                [.lit "```", .cap 1, .lit "\n"] r
    let r := gmT ([.bol, .grp 1 [plusA (.chr '#')]] ++ litRE " --") [.cap 1] r
    let r := gmT [.bol, plusA (.chr '0'), .eol] [] r
    let r := jsReplace false
               (litRE "title: \"" ++ [.grp 1 [starA (clsNotIn ['"'])], .chr '"'])
               (fun _ caps =>
                 "title: \"" ++ gT (litRE "\\\"") [.lit "\""] (capGet caps 1) ++ "\"") r
    let r := gmT [.bol, .grp 1 [plusA (.chr '#')], .grp 2 [nwsA]] [.cap 1, .lit " ", .cap 2] r
    let r := gmT [.bol, .grp 1 [starA wsA, clsIn ['-', '*', '+'], starA .dot],
                  .chr '\n', .chr '\n', .look [starA wsA, clsIn ['-', '*', '+']]]
                 [.cap 1, .lit "\n"] r
    let r := gT [.grp 1 [notNlA], .grp 2 [.chr '\n', repA 1 (some 6) (.chr '#'), .chr ' ']]
                [.cap 1, .lit "\n\n", .cap 2] r
    let r := gT [.grp 1 [.chr '>', starA .dot, .chr '\n'], .chr '\n', .look [.chr '>']]
                [.cap 1] r
    let r := gT (litRE "</details>" ++ [starA wsA] ++ litRE "<details>")
                [.lit "</details>\n\n<details>"] r
    let r := gT [.chr '>', starA wsA, .chr '\n', .chr '>', starA wsA, .chr '\n']
                [.lit ">\n>\n"] r
    let r := gT (litRE "(./images/") [.lit "(images/"] r
    let r := gT [.chr '<', .grp 1 [plusA (rngA 'a' 'z')], .chr '>', starA wsA,
                 .chr '<', .chr '/', .bref 1, .chr '>'] [] r
    let r := gT [.chr '|', starA wsA, .chr '|'] [.lit "| |"] r
    let r := gmT [.bol, repA 1 (some 2) (.chr '-'), .eol] [.lit "---"] r
    let r := gT ([.grp 1 (litRE "\n---\n")] ++ litRE "\n---\n") [.cap 1] r
    let r := jsReplace false
               ([.chr '[',
                 .grp 1 [starA (clsNotIn [']']), .chr '[', starA (clsNotIn [']']),
                         .chr ']', starA (clsNotIn [']'])],
                 .chr ']', .chr '(', .grp 2 [plusA (clsNotIn [')'])], .chr ')'])
               (fun whole caps =>
                 let text := capGet caps 1
                 if containsSub text "[" && containsSub text "]" then text else whole) r
    let r := gT (litRE "&nbsp;") [.lit " "] r
    let r := gT (litRE "&amp;") [.lit "&"] r
    let r := gT (litRE "&lt;") [.lit "<"] r
    let r := gT (litRE "&gt;") [.lit ">"] r
    let r := gmT [.bol, .grp 1 [starA wsA, clsIn ['-', '*', '+']], starA wsA, .eol]
                 [.cap 1, .lit " "] r
    -- FINAL CLEANUP PASS
    let r := gmT ([.bol] ++ litRE "# # ") [.lit "## "] r
    let r := gmT ([.bol] ++ litRE "## - ### ") [.lit "- ### "] r
    r

/-! ## `fixBrokenTables` (src/modules/utilities.js, lines 201-307) -/

/-- `(line.match(/\|/g) || []).length`. -/
def countPipes (s : String) : Nat := s.toList.countP (· = '|')

/-- The generated separator: `'|'` followed by `numColumns` copies of `' --- |'`. -/
def genSeparator (numColumns : Nat) : String :=
  (List.replicate numColumns " --- |").foldl (· ++ ·) "|"

/-- Pad a short table row: per missing column, append `" |"` when the line
already ends with `'|'`, otherwise `" | |"` (re-checked each iteration). -/
def addMissingCols (fixedLine : String) : Nat → String
  | 0 => fixedLine
  | k+1 =>
    addMissingCols (if endsWithStr fixedLine "|" then fixedLine ++ " |" else fixedLine ++ " | |") k

/-- Truncate an over-long table row: `split('|')`, keep `numColumns + 2`
pieces, re-join with `'|'`. -/
def truncCols (line : String) (numColumns : Nat) : String :=
  String.intercalate "|" ((splitCharStr '|' line).take (numColumns + 2))

def fixBrokenTablesGo : Nat → List String → Bool → Nat → List String
  | 0, ls, _, _ => ls
  | _, [], _, _ => []
  | fuel+1, cur :: rest, inTable, numColumns =>
    let t := trimJS cur
    if ¬ inTable && startsWithStr t "|" && endsWithStr t "|" then
      -- table start: push the line, then ensure a separator follows
      let n := countPipes cur - 1
      match rest with
      | next :: rest2 =>
        if containsSub next "---" && containsSub next "|" then
          cur :: next :: fixBrokenTablesGo fuel rest2 true n
        else
          cur :: genSeparator n :: fixBrokenTablesGo fuel rest true n
      | [] => cur :: genSeparator n :: fixBrokenTablesGo fuel [] true n
    else if inTable && startsWithStr t "|" && endsWithStr t "|" then
      -- table continuation: reconcile the column count
      let columnCount := countPipes cur - 1
      if columnCount = numColumns then
        cur :: fixBrokenTablesGo fuel rest true numColumns
      else if columnCount < numColumns then
        addMissingCols cur (numColumns - columnCount) :: fixBrokenTablesGo fuel rest true numColumns
      else
        truncCols cur numColumns :: fixBrokenTablesGo fuel rest true numColumns
    else if inTable then
      -- exiting the table: blank line before the closing line when needed
      (if t ≠ "" then ["", cur] else [cur]) ++ fixBrokenTablesGo fuel rest false 0
    else
      cur :: fixBrokenTablesGo fuel rest false 0

def fixBrokenTables (markdown : String) : String :=
  if markdown = "" then ""
  else
    let lines := splitCharStr '\n' markdown
    String.intercalate "\n" (fixBrokenTablesGo (lines.length + 1) lines false 0)

/-- The whole-document cleanup pipeline as run by `generateMarkdown`
(src/modules/markdown-generator.js, lines 99-100) and by
`postProcessMarkdownFiles`: `cleanupMarkdown` then `fixBrokenTables`. -/
def cleanupPipeline (s : String) : String := fixBrokenTables (cleanupMarkdown s)



/-! ## Table structure helpers -/

/-- `HTMLTableElement.rows`: the `tr` children of the table plus the `tr`
children of its `thead`/`tbody`/`tfoot` children, in tree order, each paired
with its ancestor chain. -/
def tableRowsAnc (anc : List Node) (table : Node) : List (Node × List Node) :=
  go (table :: anc) table.childrenOf
where
  go (tAnc : List Node) : List Node → List (Node × List Node)
  | [] => []
  | c :: cs =>
    (if c.tagOf = "TR" then [(c, tAnc)]
     else if c.tagOf = "THEAD" || c.tagOf = "TBODY" || c.tagOf = "TFOOT" then
       (c.childrenOf.filter (fun r => r.tagOf = "TR")).map (fun r => (r, c :: tAnc))
     else []) ++ go tAnc cs

/-- `HTMLTableRowElement.cells`: the `td`/`th` children of a row. -/
def rowCells (tr : Node) : List Node :=
  tr.childrenOf.filter (fun c => c.tagOf = "TD" || c.tagOf = "TH")

/-- `cell.getAttribute(k) || d` (JS `||`: absent or empty falls back). -/
def attrOr (n : Node) (k d : String) : String :=
  match n.getAttr k with
  | some s => if s = "" then d else s
  | none => d

/-! ## Table classification (src/modules/element-processors.js)

`isHistoryTable` (lines 12-24), `isLayoutTable` (lines 26-44),
`isComplexCell` (lines 262-283, the later of the two definitions, which wins
in JS), `isComplexTable` (lines 290-302), `isComplexTableCell`
(lines 526-546).  These read the live DOM, so `id` lookups go through the
id-assignment table. -/

def isHistoryTable (ids : List (Nat × String)) (anc : List Node) (table : Node) : Bool :=
  if currentId ids table = "page-history-container" || table.classContains "tableview" then true
  else
    -- headers = querySelectorAll("th, thead td") text, trimmed and lowercased
    let headers := (allDesc anc table (fun _ => true)).filterMap (fun x =>
      if x.1.tagOf = "TH" || (x.1.tagOf = "TD" && x.2.any (fun a => a.tagOf = "THEAD")) then
        some (toLowerStr (trimJS x.1.textContent))
      else none)
    if (headers.contains "version" || headers.contains "v.") &&
       (headers.contains "changed by" || headers.contains "published") then true
    else
      -- walk parentElement chain
      anc.any (fun parent =>
        (truthy (currentId ids parent) &&
          (containsSub (currentId ids parent) "history" || containsSub (currentId ids parent) "version")) ||
        parent.classContains "history" || parent.classContains "expand-content")

def blockTagsLayout : List String := ["DIV", "TABLE", "UL", "OL", "P", "H1", "H2", "H3", "H4", "H5", "H6"]

def isLayoutTable (anc : List Node) (table : Node) : Bool :=
  if table.classContains "layout" || table.classContains "contentLayoutTable" ||
     table.classContains "layout-table" then true
  else
    let closestHit := (table :: anc).any (fun n =>
      n.classContains "contentLayout2" || n.classContains "columnLayout" ||
      n.classContains "section" || n.classContains "panelContent")
    let nested :=
      if closestHit then
        if table.getAttr "border" = some "0" ||
           ((table.getAttr "border").isNone && table.styleGet "border-style" = "none") then
          match firstDesc anc table (fun n => n.tagOf = "TD") with
          | some (firstCell, cAnc) =>
            (firstDesc cAnc firstCell (fun n => blockTagsLayout.contains n.tagOf)).isSome
          | none => false
        else false
      else false
    if nested then true
    else if table.getAttr "border" = some "0" then true
    else
      let trs := allDesc anc table (fun n => n.tagOf = "TR")
      let singleCellBlock :=
        match trs with
        | [(tr, trAnc)] =>
          match allDesc trAnc tr (fun n => n.tagOf = "TD") with
          | [(td, tdAnc)] =>
            (firstDesc tdAnc td (fun n =>
              n.tagOf = "DIV" || n.tagOf = "TABLE" || n.tagOf = "UL" ||
              n.tagOf = "OL" || n.tagOf = "P")).isSome
          | _ => false
        | _ => false
      if singleCellBlock then true
      else table.classContains "wysiwyg-macro"

def complexSelTags : List String := ["H1", "H2", "H3", "H4", "H5", "H6", "IMG", "UL", "OL", "TABLE"]

/-- `isComplexCell` (the second definition, lines 262-283). -/
def isComplexCell (cell : Node) : Bool :=
  if (firstDesc [] cell (fun n =>
        complexSelTags.contains n.tagOf ||
        n.classContains "panel" || n.classContains "confluence-information-macro")).isSome then true
  else containsSub (trimJS cell.textContent) "\n\n"

/-- `isComplexTable` (lines 290-302): any `td`/`th` descendant is complex. -/
def isComplexTable (table : Node) : Bool :=
  (allDesc [] table (fun n => n.tagOf = "TD" || n.tagOf = "TH")).any (fun x => isComplexCell x.1)

/-- `isComplexTableCell` (lines 526-546). -/
def isComplexTableCell (cell : Node) : Bool :=
  if (firstDesc [] cell (fun n =>
        complexSelTags.contains n.tagOf || n.tagOf = "PRE" || n.tagOf = "BLOCKQUOTE" ||
        n.classContains "panel" || n.classContains "confluence-information-macro")).isSome then true
  else (trimJS cell.textContent).length > 100

/-- `simplifyComplexCellContent` (lines 757-806, the later definition). -/
def simplifyComplexCellContent (cell : Node) : String :=
  let headings := allDesc [] cell (fun n => ["H1","H2","H3","H4","H5","H6"].contains n.tagOf)
  match headings with
  | (h, _) :: _ => "**" ++ trimJS h.textContent ++ "**"
  | [] =>
  let images := allDesc [] cell (fun n => n.tagOf = "IMG")
  match images with
  | (img, _) :: _ => "[" ++ attrOr img "alt" "image" ++ "]"
  | [] =>
  let lists := allDesc [] cell (fun n => n.tagOf = "UL" || n.tagOf = "OL")
  match lists with
  | (list, lAnc) :: _ =>
    let items := allDesc lAnc list (fun n => n.tagOf = "LI")
    if items.length ≤ 2 then
      String.intercalate " " (items.map (fun it => "• " ++ trimJS it.1.textContent))
    else "[List with " ++ toString items.length ++ " items]"
  | [] =>
  let tables := allDesc [] cell (fun n => n.tagOf = "TABLE")
  if ¬ tables.isEmpty then "[Nested table]"
  else
    let panels := allDesc [] cell (fun n =>
      n.classContains "panel" || n.classContains "confluence-information-macro")
    if ¬ panels.isEmpty then "[Panel content]"
    else
      let text := replaceWsRuns " " (trimJS cell.textContent)
      if text.length > 50 then String.mk (text.toList.take 47) ++ "..." else text

/-- `processTableCellContent` (lines 312-370): complex cells are simplified;
simple cells are flattened from their direct children. -/
def processTableCellContent (cell : Node) : String :=
  if isComplexTableCell cell then simplifyComplexCellContent cell
  else
    let content := cell.childrenOf.foldl (fun content child =>
      match child with
      | .text s => content ++ s
      | .comment _ => content
      | .elem _ tag _ _ =>
        let t := toLowerStr tag
        if t = "br" then content ++ " "
        else if t = "a" then
          content ++ "[" ++ trimJS child.textContent ++ "](" ++ (child.getAttr "href").getD "" ++ ")"
        else if t = "strong" || t = "b" then content ++ "**" ++ trimJS child.textContent ++ "**"
        else if t = "em" || t = "i" then content ++ "*" ++ trimJS child.textContent ++ "*"
        else if t = "code" then content ++ "`" ++ trimJS child.textContent ++ "`"
        else if t = "p" then
          (if content ≠ "" then content ++ " " else content) ++ trimJS child.textContent
        else content ++ trimJS child.textContent) ""
    replChar '|' "\\|" (replaceWsRuns " " (trimJS content))

/-! ## The history-table renderer (src/modules/element-processors.js, lines 184-255) -/

/-- Render one history row's cells (`cells.length ≥ 3` assumed by the caller). -/
def historyRowData (cells : List Node) : List String :=
  let c0 := cells.getD 0 (.text "")
  let c1 := cells.getD 1 (.text "")
  let c2 := cells.getD 2 (.text "")
  -- Version cell
  let versionText :=
    match firstDesc [] c0 (fun n => n.tagOf = "A") with
    | some (a, _) =>
      let linkText := trimJS a.textContent
      "[" ++ (if linkText ≠ "" then linkText else trimJS c0.textContent) ++ "](" ++
        (a.getAttr "href").getD "" ++ ")"
    | none => replChar '|' "\\|" (replChar '\n' " " (trimJS c0.textContent))
  -- Published cell
  let publishedText := replChar '|' "\\|" (replChar '\n' " " (trimJS c1.textContent))
  -- Changed By cell
  let iconPart :=
    match firstDesc [] c2 (fun n => n.tagOf = "IMG" && n.classContains "userLogo") with
    | some (icon, _) =>
      let src0 := (icon.getAttr "src").getD ""
      let src :=
        if src0 ≠ "" && ¬ startsWithStr src0 "http" && ¬ startsWithStr src0 "/" &&
           ¬ startsWithStr src0 "./" then "./" ++ src0
        else src0
      "![" ++ attrOr icon "alt" "User icon" ++ "](" ++ src ++ ") "
    | none => ""
  let namePart :=
    match (descElems [] c2).find? (fun x =>
        (x.1.tagOf = "A" || (x.1.tagOf = "SPAN" && x.1.classContains "unknown-user")) &&
        x.2.any (fun p => p.classContains "page-history-contributor-name")) with
    | some (u, _) =>
      let userName := trimJS u.textContent
      if u.tagOf = "A" then "[" ++ userName ++ "](" ++ (u.getAttr "href").getD "" ++ ")"
      else userName
    | none => replChar '|' "\\|" (replChar '\n' " " (trimJS c2.textContent))
  let changedByText := trimJS (iconPart ++ namePart)
  -- Comment cell
  let commentText :=
    replChar '|' "\\|" (replChar '\n' " "
      (if cells.length > 3 then trimJS ((cells.getD 3 (.text "")).textContent) else ""))
  [versionText, publishedText, changedByText, commentText]

/-- The data-row loop of `processHistoryTable` (lines 197-249): skip rows
already processed and rows with fewer than 3 `td` cells; processed rows are
added to the set only when emitted. -/
def processHistoryRows : List Node → St → String × St
  | [], st => ("", st)
  | tr :: rest, st =>
    if st.processed.contains tr.refOf then processHistoryRows rest st
    else
      let cells := (allDesc [] tr (fun n => n.tagOf = "TD")).map (·.1)
      if cells.length < 3 then processHistoryRows rest st
      else
        let rowData := historyRowData cells
        let line := "| " ++ String.intercalate " | " rowData ++ " |\n"
        let res := processHistoryRows rest (st.addProcessed tr.refOf)
        (line ++ res.1, res.2)

def processHistoryTable (table : Node) (st : St) : String × St :=
  let rowsToProcess :=
    match firstDesc [] table (fun n => n.tagOf = "TBODY") with
    | some (tbody, _) => (allDesc [] tbody (fun n => n.tagOf = "TR")).map (·.1)
    | none => ((allDesc [] table (fun n => n.tagOf = "TR")).map (·.1)).drop 1
  if rowsToProcess.length = 0 then ("", st)
  else
    let header := "\n### Page History\n\n" ++
      "| " ++ String.intercalate " | " ["Version", "Published", "Changed By", "Comment"] ++ " |\n" ++
      "|" ++ String.intercalate "|" (List.replicate 4 "---") ++ "|\n"
    let res := processHistoryRows rowsToProcess st
    (header ++ res.1 ++ "\n", res.2)

/-! ## The Standard-table renderer (the body of `processTable`,
src/modules/element-processors.js, lines 399-499)

`maxCols` is an `Option Int`: `none` models the JS `NaN` that a non-numeric
`colspan` propagates through `Math.max`; every JS comparison against `NaN`
is false (`jsLt`), and `Array(NaN)` throws, which the surrounding
`try`/`catch` converts to an empty result. -/

def tableMaxCols (rows : List Node) : Option Int :=
  rows.foldl (fun maxCols tr =>
    let colCount := (rowCells tr).foldl (fun acc cell =>
      jsAdd acc (parseIntJS (attrOr cell "colspan" "1"))) (some 0)
    jsMax maxCols colCount) (some 0)

/-- One row of `allTableRows`: the header flag
(`tr.querySelectorAll("th").length > 0`) and the padded cell texts. -/
def collectRow (tr : Node) : Bool × List String :=
  let cells := rowCells tr
  let rowCellsOut := cells.foldl (fun acc cell =>
    let colspan := parseIntJS (attrOr cell "colspan" "1")
    let safeContent := safeTableCellContent (processTableCellContent cell)
    let fillers := match colspan with
      | some c => if c ≥ 2 then (c - 1).toNat else 0
      | none => 0
    acc ++ [safeContent] ++ List.replicate fillers " ") []
  ((allDesc [] tr (fun n => n.tagOf = "TH")).length > 0, rowCellsOut)

/-- The row-collection loop (lines 424-458): rows already in the processed
set are skipped; visited rows and their cells are added to the set; rows with
no cells are dropped. -/
def collectRows : List Node → St → List (Bool × List String) × St
  | [], st => ([], st)
  | tr :: rest, st =>
    if st.processed.contains tr.refOf then collectRows rest st
    else
      let st := st.addProcessed tr.refOf
      let st := (rowCells tr).foldl (fun s c => s.addProcessed c.refOf) st
      let row := collectRow tr
      let res := collectRows rest st
      (if row.2.length > 0 then row :: res.1 else res.1, res.2)

/-- JS `arr.slice(0, m)` for a possibly negative `m`. -/
def jsSlice0 (m : Int) (l : List String) : List String :=
  let e : Int := if m < 0 then max ((l.length : Int) + m) 0 else min m (l.length)
  l.take e.toNat

/-- Pad then truncate one row to `maxCols` (lines 467-475); no-ops when
`maxCols` is NaN, since every comparison against NaN is false. -/
def padTruncRow (maxCols : Option Int) (cells : List String) : List String :=
  match maxCols with
  | none => cells
  | some m =>
    let padded :=
      if (cells.length : Int) < m then cells ++ List.replicate (m.toNat - cells.length) " "
      else cells
    if (padded.length : Int) > m then jsSlice0 m padded else padded

def sepRowLine (m : Nat) : String :=
  "|" ++ String.intercalate "|" (List.replicate m "---") ++ "|\n"

def dataRowLine (cells : List String) : String :=
  "| " ++ String.intercalate " | " cells ++ " |\n"

/-- The emission loop (lines 481-497) producing the markdown lines; `none`
models the `RangeError` of `Array(NaN)` when the separator must be built
with a NaN column count. -/
def emitRows (maxCols : Option Int) (total : Nat) :
    List (Bool × List String) → Nat → Bool → Option (List String)
  | [], _, _ => some []
  | (isHeader, cells) :: rest, i, headerProcessed =>
    if cells.all (fun c => c = "" || trimJS c = "") then
      emitRows maxCols total rest (i + 1) headerProcessed
    else
      let line := dataRowLine cells
      if (isHeader || i = 0) && ¬ headerProcessed && total > 1 then
        match maxCols with
        | none => none
        | some m => (emitRows maxCols total rest (i + 1) true).map
            (fun ls => line :: sepRowLine m.toNat :: ls)
      else (emitRows maxCols total rest (i + 1) headerProcessed).map (fun ls => line :: ls)

/-- The Standard branch of `processTable` (lines 399-499); the `catch` of
`processTable` turns the emission `RangeError` into `""`. -/
def processStandardTable (anc : List Node) (table : Node) (st : St) : String × St :=
  let rows := (tableRowsAnc anc table).map (·.1)
  let maxCols := tableMaxCols rows
  if maxCols = some 0 then ("", st)
  else
    let res := collectRows rows st
    if res.1.length = 0 then ("", res.2)
    else
      let normalized := res.1.map (fun r => (r.1, padTruncRow maxCols r.2))
      (match emitRows maxCols normalized.length normalized 0 false with
       | none => ""
       | some pieces =>
         let md := "\n" ++ pieces.foldl (· ++ ·) ""
         if trimJS md ≠ "" then md ++ "\n\n" else "", res.2)

/-! ## `cleanupSectionContent` (src/modules/element-processors.js, lines 676-702) -/

def cleanupSectionContent (content : String) : String :=
  let bullet := clsIn ['-', '*']
  let r := content
  let r := gmT [.bol, .grp 1 [starA wsA, bullet], plusA wsA, bullet, plusA wsA]
               [.cap 1, .lit "   * "] r
  let r := gmT [.bol, .grp 1 [starA wsA, bullet], plusA wsA,
                .grp 2 [repA 1 (some 6) (.chr '#')], plusA wsA]
               [.cap 1, .lit " **"] r
  let r := gmT [.bol, .grp 1 [starA wsA, bullet, plusA wsA],
                repA 1 (some 6) (.chr '#'), .grp 2 [lazyPlusA .dot], .eol]
               [.cap 1, .lit "**", .cap 2, .lit "**"] r
  let r := gmT [.bol, .grp 1 [starA wsA, bullet, plusA .dot, .chr '\n'],
                .grp 2 [plusA (.chr '#'), plusA wsA]]
               [.cap 1, .lit "\n", .cap 2] r
  let r := gmT [.bol, plusA (.chr '#'), starA wsA, plusA (.chr '#'), plusA wsA]
               [.lit "### "] r
  let r := gmT [.bol, .grp 1 [starA wsA], bullet, plusA wsA, bullet, plusA wsA]
               [.cap 1, .lit "- "] r
  let r := gmT [.bol, .chr '-', plusA wsA] [.lit "- "] r
  let r := gmT [.bol, .grp 1 [starA wsA, bullet, plusA wsA],
                .look [lazyStarA .dot, .chr ' ', .chr '*', .chr '*']]
               [.cap 1] r
  r



/-! ## Miscellaneous dispatcher helpers -/

def headingTags : List String := ["H1", "H2", "H3", "H4", "H5", "H6"]

/-- `parseInt(tagName.substring(1), 10)` for a heading tag. -/
def headingLevel (tag : String) : Nat :=
  ((parseIntJS (String.mk (tag.toList.drop 1))).getD 0).toNat

/-- A debug-path segment: `LABEL` + `#id` (when truthy) + `.classes`
(whitespace runs turned into dots). -/
def pathSeg (ids : List (Nat × String)) (label : String) (n : Node) : String :=
  label ++
  (if currentId ids n ≠ "" then "#" ++ currentId ids n else "") ++
  (if n.classNameOf ≠ "" then "." ++ replaceWsRuns "." (trimJS n.classNameOf) else "")

/-- First capture of the first match of `re` in `s` (JS `s.match(re)?.[1]`). -/
def findFirstCap (ml : Bool) (re : List RAtom) (s : String) : Option String :=
  go (s.length + 2) 0
where
  go : Nat → Nat → Option String
  | 0, _ => none
  | steps+1, pos =>
    if pos > s.length then none
    else
      match matchAt (matchFuel s.length) ml s.toList re pos with
      | some (_, caps) => some (capGet caps 1)
      | none => go steps (pos + 1)

/-- `document.getElementById` (with the target's ancestor chain; empty
target ids find nothing, as in JSDOM). -/
def getElementByIdPath (ids : List (Nat × String)) (doc : Node) (targetId : String) :
    Option (Node × List Node) :=
  if targetId = "" then none
  else
    ((if doc.nodeType = 1 then [(doc, ([] : List Node))] else []) ++ descElems [] doc).find?
      (fun x => currentId ids x.1 = targetId)

/-- `processImage` (src/modules/element-processors.js, lines 863-899); pure:
reads the image and its parent paragraph.  `parent` is `img.parentElement`. -/
def processImage (ids : List (Nat × String)) (parent : Option Node) (img : Node) : String :=
  let src0 := (img.getAttr "src").getD ""
  let src :=
    if src0 ≠ "" && ¬ startsWithStr src0 "http" && ¬ startsWithStr src0 "/" &&
       ¬ startsWithStr src0 "./" then "./" ++ src0
    else src0
  let alt := attrOr img "alt" "image"
  let title := (img.getAttr "title").getD ""
  let markdown := "![" ++ alt ++ "](" ++ src ++ (if title ≠ "" then " \"" ++ title ++ "\"" else "") ++ ")"
  match parent with
  | some p =>
    if p.tagOf = "P" then
      let onlySignificantChild := p.childrenOf.all (fun child =>
        (child.nodeType = 1 && child.refOf = img.refOf) ||
        (child.nodeType = 3 && trimJS child.ownTextContent = "") ||
        child.nodeType = 8)
      if onlySignificantChild then markdown ++ "\n\n" else markdown
    else markdown
  | none => markdown

/-- The tag vocabulary of the dispatcher's `switch` statement
(content-processor.js, lines 46-198), tested in source order. -/
inductive TagKind where
  | divK | tableK | pK | headingK | ulK | olK | liK | aK | imgK
  | strongK | emK | codeK | preK | brK | hrK | spanK | otherK

def tagKind (t : String) : TagKind :=
  if t = "DIV" then .divK
  else if t = "TABLE" then .tableK
  else if t = "P" then .pK
  else if headingTags.contains t then .headingK
  else if t = "UL" then .ulK
  else if t = "OL" then .olK
  else if t = "LI" then .liK
  else if t = "A" then .aK
  else if t = "IMG" then .imgK
  else if t = "STRONG" || t = "B" then .strongK
  else if t = "EM" || t = "I" then .emK
  else if t = "CODE" then .codeK
  else if t = "PRE" then .preK
  else if t = "BR" then .brK
  else if t = "HR" then .hrK
  else if t = "SPAN" then .spanK
  else .otherK

/-- The same-document href resolution of `processLink`
(element-processors.js, lines 842-855): fragment hrefs pointing at headings
or TOC-contained elements are rewritten through `slugify`; other found
targets get their id assigned when absent (a dead branch, since
`getElementById` only finds elements whose id already equals the target). -/
def plResolveHref (doc : Node) (st1 : St) (href0 text : String) : String × St :=
  if startsWithStr href0 "#" && text ≠ "" then
    let targetId := String.mk (href0.toList.drop 1)
    match getElementByIdPath st1.ids doc targetId with
    | some (tgt, tgtAnc) =>
      if headingTags.contains tgt.tagOf ||
         (tgt :: tgtAnc).any (fun n => n.getAttr "data-macro-name" = some "toc") then
        let headerTextForSlug := trimJS tgt.textContent
        ("#" ++ slugify (if headerTextForSlug ≠ "" then headerTextForSlug else targetId), st1)
      else
        let st2 :=
          if currentId st1.ids tgt = "" then
            { st1 with ids := (tgt.refOf, targetId) :: st1.ids }
          else st1
        ("#" ++ currentId st2.ids tgt, st2)
    | none => (href0, st1)
  else (href0, st1)

/-! ## The element dispatcher and its delegates

`processElementContent` (src/modules/content-processor.js, lines 19-205) and
the mutually recursive processors of src/modules/element-processors.js:
`processDiv` (126-155), `processPanel` (86-112), `processLayout` (114-124),
`processTable` (380-504, delegating its Standard branch to
`processStandardTable` above), `processLayoutTableContent` (163-182),
`processTableAsSections` (604-669) and `processLink` (829-861).

All functions take the document root (for `getElementById`), the subject
node's ancestor chain (for `parentElement` and `closest`), the converter
state and the debug path.  The JS `for` loops over child/row/cell lists are
the `...Kids`/`...Rows`/`...Cells` helpers.  Fuel decreases on every call;
fuel 0 yields the neutral result and is unreachable for fuel larger than the
number of nodes processed. -/

mutual

def processElementContent (fuel : Nat) (doc : Node) (anc : List Node) (el : Node)
    (st : St) (parentPath : String) : String × St :=
  match fuel with
  | 0 => ("", st)
  | f+1 =>
    match el with
    | .text s => (s, st)
    | .comment _ => ("", st)
    | .elem r tag attrs kids =>
      let element := Node.elem r tag attrs kids
      let currentPath := parentPath ++ " > " ++
        pathSeg st.ids (if tag = "" then "TEXT_NODE" else tag) element
      if shouldBeIgnored st.ids element currentPath parentPath then
        ("", st.addProcessed r)
      else if st.processed.contains r then ("", st)
      else pecDispatch f doc anc element (st.addProcessed r) currentPath
termination_by structural fuel

/-- The `switch (tagName)` of `processElementContent`
(content-processor.js, lines 46-198); the subject element has already been
added to the processed set. -/
def pecDispatch (fuel : Nat) (doc : Node) (anc : List Node) (element : Node)
    (st : St) (currentPath : String) : String × St :=
  match fuel with
  | 0 => ("", st)
  | f+1 =>
    match tagKind (toUpperStr element.tagOf) with
    | .divK => processDiv f doc anc element st currentPath
    | .tableK => processTable f doc anc element st currentPath
    | .pK =>
      let res := pecKids f doc (element :: anc) element.childrenOf st currentPath
      (if trimJS res.1 ≠ "" then trimJS res.1 ++ "\n\n" else "", res.2)
    | .headingK =>
      let level := headingLevel (toUpperStr element.tagOf)
      let res := pecKids f doc (element :: anc) element.childrenOf st currentPath
      (String.mk (List.replicate level '#') ++ " " ++ trimJS res.1 ++ "\n\n", res.2)
    | .ulK =>
      let res := pecULItems f doc (element :: anc)
        (element.childrenOf.filter (fun c => c.nodeType = 1)) st currentPath
      (res.1 ++ "\n", res.2)
    | .olK =>
      let res := pecOLItems f doc (element :: anc)
        (element.childrenOf.filter (fun c => c.nodeType = 1)) st currentPath 1
      (res.1 ++ "\n", res.2)
    | .liK => pecKids f doc (element :: anc) element.childrenOf st currentPath
    | .aK => processLink f doc anc element st currentPath
    | .imgK => (processImage st.ids anc.head? element, st)
    | .strongK =>
      let res := pecKids f doc (element :: anc) element.childrenOf st currentPath
      ("**" ++ res.1 ++ "**", res.2)
    | .emK =>
      let res := pecKids f doc (element :: anc) element.childrenOf st currentPath
      ("*" ++ res.1 ++ "*", res.2)
    | .codeK =>
      let codeText := element.childrenOf.foldl (fun a c => a ++ c.ownTextContent) ""
      (match anc.head? with
       | some p => if toUpperStr p.tagOf = "PRE" then codeText
                   else "\\[" ++ codeText ++ "\\]"
       | none => "\\[" ++ codeText ++ "\\]", st)
    | .preK =>
      let preText := element.textContent
      let fallback :=
        (findFirstCap false (litRE "language-" ++ [.grp 1 [plusA nwsA]])
          element.classNameOf).getD ""
      let language :=
        match element.getAttr "data-language" with
        | some s => if s ≠ "" then s else fallback
        | none => fallback
      ("\\[\\[\\[" ++ language ++ "\n" ++ trimJS preText ++ "\n\\]\\]\\]\n\n", st)
    | .brK => ("\n", st)
    | .hrK => ("\n---\n\n", st)
    | .spanK =>
      if element.classContains "highlight" then
        let res := pecKids f doc (element :: anc) element.childrenOf st currentPath
        ("**" ++ res.1 ++ "**", res.2)
      else if element.classContains "status-macro" then
        ("\\[" ++ trimJS element.textContent ++ "\\]", st)
      else pecKids f doc (element :: anc) element.childrenOf st currentPath
    | .otherK => pecKids f doc (element :: anc) element.childrenOf st currentPath
termination_by structural fuel

/-- The repeated inline loop `for (const child of element.childNodes)
markdown += processElementContent(child, …)`. -/
def pecKids (fuel : Nat) (doc : Node) (anc : List Node) (kids : List Node)
    (st : St) (path : String) : String × St :=
  match fuel with
  | 0 => ("", st)
  | f+1 =>
    match kids with
    | [] => ("", st)
    | c :: cs =>
      let a := processElementContent f doc anc c st path
      let b := pecKids f doc anc cs a.2 path
      (a.1 ++ b.1, b.2)
termination_by structural fuel

/-- The `UL` item loop (content-processor.js, lines 76-92). -/
def pecULItems (fuel : Nat) (doc : Node) (anc : List Node) (lis : List Node)
    (st : St) (path : String) : String × St :=
  match fuel with
  | 0 => ("", st)
  | f+1 =>
    match lis with
    | [] => ("", st)
    | li :: rest =>
      if li.tagOf = "LI" then
        let a := processElementContent f doc anc li st path
        let ic := trimJS a.1
        let item :=
          if containsSub ic "\n" then
            match splitCharStr '\n' ic with
            | first :: lines =>
              "- " ++ first ++ "\n" ++
                lines.foldl (fun a line =>
                  a ++ (if trimJS line ≠ "" then "  " ++ line ++ "\n" else "\n")) ""
            | [] => "- " ++ ic ++ "\n"
          else "- " ++ ic ++ "\n"
        let b := pecULItems f doc anc rest a.2 path
        (item ++ b.1, b.2)
      else pecULItems f doc anc rest st path
termination_by structural fuel

/-- The `OL` item loop (content-processor.js, lines 96-113); the counter
increments only on `LI` children. -/
def pecOLItems (fuel : Nat) (doc : Node) (anc : List Node) (lis : List Node)
    (st : St) (path : String) (i : Nat) : String × St :=
  match fuel with
  | 0 => ("", st)
  | f+1 =>
    match lis with
    | [] => ("", st)
    | li :: rest =>
      if li.tagOf = "LI" then
        let a := processElementContent f doc anc li st path
        let ic := trimJS a.1
        let item :=
          if containsSub ic "\n" then
            match splitCharStr '\n' ic with
            | first :: lines =>
              toString i ++ ". " ++ first ++ "\n" ++
                lines.foldl (fun a line =>
                  a ++ (if trimJS line ≠ "" then "   " ++ line ++ "\n" else "\n")) ""
            | [] => toString i ++ ". " ++ ic ++ "\n"
          else toString i ++ ". " ++ ic ++ "\n"
        let b := pecOLItems f doc anc rest a.2 path (i + 1)
        (item ++ b.1, b.2)
      else pecOLItems f doc anc rest st path i
termination_by structural fuel

def processDiv (fuel : Nat) (doc : Node) (anc : List Node) (div : Node)
    (st : St) (parentPath : String) : String × St :=
  match fuel with
  | 0 => ("", st)
  | f+1 =>
    let currentPath := parentPath ++ " > " ++ pathSeg st.ids "DIV" div
    if div.classContains "toc-macro" then
      pecKids f doc (div :: anc) div.childrenOf st currentPath
    else if div.classContains "expand-content" then
      pecKids f doc (div :: anc) div.childrenOf st currentPath
    else if div.classContains "panel" || div.classContains "aui-message" ||
            div.classContains "confluence-information-macro" then
      processPanel f doc anc div st currentPath
    else if div.classContains "contentLayout" || div.classContains "columnLayout" ||
            div.classContains "section" || div.classContains "cell" ||
            div.classContains "innerCell" || div.classContains "layout-column" ||
            div.classContains "contentLayout2" then
      processLayout f doc anc div st currentPath
    else
      pecKids f doc (div :: anc) div.childrenOf st currentPath
termination_by structural fuel

def processPanel (fuel : Nat) (doc : Node) (anc : List Node) (panelDiv : Node)
    (st : St) (parentPath : String) : String × St :=
  match fuel with
  | 0 => ("", st)
  | f+1 =>
    let currentPath := parentPath ++ " > " ++ pathSeg st.ids "PANEL" panelDiv
    let title := firstDesc anc panelDiv (fun n =>
      n.classContains "panelHeader" || n.classContains "panel-header" ||
      n.classContains "aui-message-header")
    let content := firstDesc anc panelDiv (fun n =>
      n.classContains "panelContent" || n.classContains "panel-body" ||
      n.classContains "aui-message-content")
    let titleRes :=
      match title with
      | some (t, tAnc) =>
        let a := pecKids f doc (t :: tAnc) t.childrenOf st (currentPath ++ " > TITLE")
        ((if trimJS a.1 ≠ "" then "**" ++ trimJS a.1 ++ "**\n\n" else ""), a.2)
      | none => ("", st)
    let target :=
      match content with
      | some (c, cAnc) => (c, cAnc)
      | none => (panelDiv, anc)
    let skipRef : Option Nat := if content.isSome then title.map (fun x => x.1.refOf) else none
    let childPath := currentPath ++ (if content.isSome then " > CONTENT" else " > CHILD")
    let bodyRes := panelKids f doc (target.1 :: target.2) target.1.childrenOf skipRef titleRes.2 childPath
    let md := titleRes.1 ++ bodyRes.1
    (if trimJS md ≠ "" then "> " ++ replChar '\n' "\n> " (trimJS md) ++ "\n\n" else "",
     bodyRes.2)
termination_by structural fuel

/-- The panel body loop, skipping the title element when a dedicated content
element exists (`child === panelTitleElement && panelContentElement`). -/
def panelKids (fuel : Nat) (doc : Node) (anc : List Node) (kids : List Node)
    (skipRef : Option Nat) (st : St) (path : String) : String × St :=
  match fuel with
  | 0 => ("", st)
  | f+1 =>
    match kids with
    | [] => ("", st)
    | c :: cs =>
      if (match c with
          | .elem cr _ _ _ => skipRef == some cr
          | _ => false) then
        panelKids f doc anc cs skipRef st path
      else
        let a := processElementContent f doc anc c st path
        let b := panelKids f doc anc cs skipRef a.2 path
        (a.1 ++ b.1, b.2)
termination_by structural fuel

def processLayout (fuel : Nat) (doc : Node) (anc : List Node) (layoutDiv : Node)
    (st : St) (parentPath : String) : String × St :=
  match fuel with
  | 0 => ("", st)
  | f+1 =>
    let currentPath := parentPath ++ " > " ++ pathSeg st.ids "LAYOUT" layoutDiv
    pecKids f doc (layoutDiv :: anc) layoutDiv.childrenOf st currentPath
termination_by structural fuel

def processTable (fuel : Nat) (doc : Node) (anc : List Node) (table : Node)
    (st : St) (parentPath : String) : String × St :=
  match fuel with
  | 0 => ("", st)
  | f+1 =>
    let currentTablePath := (if parentPath ≠ "" then parentPath else "TABLE_ROOT") ++
      " > " ++ pathSeg st.ids "TABLE" table
    if isHistoryTable st.ids anc table then processHistoryTable table st
    else if isLayoutTable anc table then
      processLayoutTableContent f doc anc table st currentTablePath
    else if isComplexTable table then
      processTableAsSections f doc anc table st currentTablePath
    else processStandardTable anc table st
termination_by structural fuel

def processLayoutTableContent (fuel : Nat) (doc : Node) (anc : List Node) (table : Node)
    (st : St) (parentPath : String) : String × St :=
  match fuel with
  | 0 => ("", st)
  | f+1 =>
    let currentPath := parentPath ++ " > " ++ pathSeg st.ids "LAYOUT_TABLE_CONTENT" table
    let res := ltcRows f doc (tableRowsAnc anc table) st currentPath
    (if trimJS res.1 ≠ "" then res.1 ++ "\n" else "", res.2)
termination_by structural fuel

def ltcRows (fuel : Nat) (doc : Node) (rows : List (Node × List Node))
    (st : St) (path : String) : String × St :=
  match fuel with
  | 0 => ("", st)
  | f+1 =>
    match rows with
    | [] => ("", st)
    | (tr, trAnc) :: rest =>
      let a := ltcCells f doc (rowCells tr) (tr :: trAnc) st path
      let b := ltcRows f doc rest a.2 path
      (a.1 ++ b.1, b.2)
termination_by structural fuel

def ltcCells (fuel : Nat) (doc : Node) (cells : List Node) (cellAnc : List Node)
    (st : St) (path : String) : String × St :=
  match fuel with
  | 0 => ("", st)
  | f+1 =>
    match cells with
    | [] => ("", st)
    | td :: rest =>
      let a := pecKids f doc (td :: cellAnc) td.childrenOf st path
      let b := ltcCells f doc rest cellAnc a.2 path
      (a.1 ++ "\n" ++ b.1, b.2)
termination_by structural fuel

def processTableAsSections (fuel : Nat) (doc : Node) (anc : List Node) (table : Node)
    (st : St) (parentPath : String) : String × St :=
  match fuel with
  | 0 => ("", st)
  | f+1 =>
    let currentPath := parentPath ++ " > " ++ pathSeg st.ids "TABLE_AS_SECTIONS" table
    let res := ptasRows f doc (tableRowsAnc anc table) st currentPath
    ("\n" ++ res.1, res.2)
termination_by structural fuel

def ptasRows (fuel : Nat) (doc : Node) (rows : List (Node × List Node))
    (st : St) (path : String) : String × St :=
  match fuel with
  | 0 => ("", st)
  | f+1 =>
    match rows with
    | [] => ("", st)
    | (row, rowAnc) :: rest =>
      if st.processed.contains row.refOf then ptasRows f doc rest st path
      else
        let st := st.addProcessed row.refOf
        match rowCells row with
        | [] => ptasRows f doc rest st path
        | firstCell :: others =>
          let titleRes := ptasCellKids f doc (firstCell :: row :: rowAnc)
            firstCell.childrenOf st.processed st.ids (path ++ " > SECTION_TITLE")
          let st := { st with ids := titleRes.2 }
          let t0 := trimJS titleRes.1
          let t1 := jsReplaceFirst false
            [.bol, plusA (.chr '#'), starA wsA, plusA (.chr '#'), plusA wsA]
            (tmplFn [.lit "## "]) t0
          let t2 := jsReplaceFirst false [.bol, plusA (.chr '#'), plusA wsA]
            (tmplFn [.lit "## "]) t1
          let sectionTitle := if ¬ startsWithStr t2 "#" then "## " ++ t2 else t2
          let titleMd := if sectionTitle ≠ "" && sectionTitle ≠ "##" then sectionTitle ++ "\n\n" else ""
          let bodyRes := ptasBodyCells f doc others (row :: rowAnc) st path
          let restRes := ptasRows f doc rest bodyRes.2 path
          (titleMd ++ bodyRes.1 ++ restRes.1, restRes.2)
termination_by structural fuel

def ptasBodyCells (fuel : Nat) (doc : Node) (cells : List Node) (rowAnc : List Node)
    (st : St) (path : String) : String × St :=
  match fuel with
  | 0 => ("", st)
  | f+1 =>
    match cells with
    | [] => ("", st)
    | cell :: rest =>
      if cell.childrenOf.isEmpty then ptasBodyCells f doc rest rowAnc st path
      else
        let cellRes := ptasCellKids f doc (cell :: rowAnc) cell.childrenOf
          st.processed st.ids (path ++ " > SECTION_CONTENT")
        let cc := cleanupSectionContent cellRes.1
        let md := if trimJS cc ≠ "" then trimJS cc ++ "\n\n" else ""
        let b := ptasBodyCells f doc rest rowAnc { st with ids := cellRes.2 } path
        (md ++ b.1, b.2)
termination_by structural fuel

/-- The per-child loop of `processTableAsSections`: every child is converted
against a fresh copy (`new Set(processedElements)`) of the current processed
set, whose additions are discarded, while id assignments persist. -/
def ptasCellKids (fuel : Nat) (doc : Node) (anc : List Node) (kids : List Node)
    (baseProcessed : List Nat) (ids : List (Nat × String)) (path : String) :
    String × List (Nat × String) :=
  match fuel with
  | 0 => ("", ids)
  | f+1 =>
    match kids with
    | [] => ("", ids)
    | c :: cs =>
      let a := processElementContent f doc anc c (St.mk baseProcessed ids) path
      let b := ptasCellKids f doc anc cs baseProcessed a.2.ids path
      (a.1 ++ b.1, b.2)
termination_by structural fuel

def processLink (fuel : Nat) (doc : Node) (anc : List Node) (link : Node)
    (st : St) (parentPath : String) : String × St :=
  match fuel with
  | 0 => ("", st)
  | f+1 =>
    let currentPath := parentPath ++ " > " ++ pathSeg st.ids "A" link
    let kidsRes := plKids f doc link anc link.childrenOf st currentPath
    let text := trimJS kidsRes.1
    let href0 := (link.getAttr "href").getD ""
    let hrefRes := plResolveHref doc kidsRes.2 href0 text
    let text := if text = "" && hrefRes.1 ≠ "" then hrefRes.1 else text
    ((if text = "" then "" else "[" ++ text ++ "](" ++ hrefRes.1 ++ ")"), hrefRes.2)
termination_by structural fuel

/-- The link-text loop: images inside the link are rendered directly by
`processImage` (with the link as parent), other children recursively. -/
def plKids (fuel : Nat) (doc : Node) (link : Node) (anc : List Node) (kids : List Node)
    (st : St) (path : String) : String × St :=
  match fuel with
  | 0 => ("", st)
  | f+1 =>
    match kids with
    | [] => ("", st)
    | c :: cs =>
      let a :=
        if c.nodeType = 1 && c.tagOf = "IMG" then (processImage st.ids (some link) c, st)
        else processElementContent f doc (link :: anc) c st path
      let b := plKids f doc link anc cs a.2 path
      (a.1 ++ b.1, b.2)
termination_by structural fuel

end

/-! ## `processHeader` (src/modules/element-processors.js, lines 808-827)

Exported by the module but not invoked by the dispatcher's heading case
(content-processor.js handles `H1`-`H6` inline); it is the only writer of
heading ids. -/

def processHeader (fuel : Nat) (doc : Node) (anc : List Node) (header : Node)
    (st : St) (parentPath : String) : String × St :=
  let currentPath := parentPath ++ " > " ++ pathSeg st.ids header.tagOf header
  let level := headingLevel header.tagOf
  let kidsRes := pecKids fuel doc (header :: anc) header.childrenOf st currentPath
  let st1 := kidsRes.2
  let headerTextContent := trimJS kidsRes.1
  if headerTextContent = "" then ("", st1)
  else
    let existingId := currentId st1.ids header
    let slug := if existingId ≠ "" then existingId else slugify headerTextContent
    let st2 :=
      if slug ≠ "" && currentId st1.ids header = "" then
        { st1 with ids := (header.refOf, slug) :: st1.ids }
      else st1
    let idAttribute :=
      if currentId st2.ids header ≠ "" then " \x7b#" ++ currentId st2.ids header ++ "\x7d" else ""
    (String.mk (List.replicate level '#') ++ " " ++ headerTextContent ++ idAttribute ++ "\n\n", st2)

/-! ## One document conversion run

Models the main-content loop of `generateMarkdown`
(src/modules/markdown-generator.js, lines 49-70: each child of the main
content element through `processElementContent` with parent path
`MAIN_CONTENT_ROOT`; the generator's own `processedElements.has` pre-check is
subsumed by the identical check inside `processElementContent`) followed by
the cleanup pipeline (lines 99-100).  The id-assignment side effects left on
the tree are returned alongside the markdown. -/

def convertRun (fuel : Nat) (doc : Node) (ids : List (Nat × String)) :
    String × List (Nat × String) :=
  let res := pecKids fuel doc [doc] doc.childrenOf (St.mk [] ids) "MAIN_CONTENT_ROOT"
  (fixBrokenTables (cleanupMarkdown res.1), res.2.ids)



/-! ## State-evolution invariants of the dispatcher -/

/-- The state-evolution invariant of one dispatcher call: the processed set
only grows and the id-assignment table is untouched. -/
def StOK (s s' : St) : Prop := s.processed ⊆ s'.processed ∧ s'.ids = s.ids

theorem StOK.refl (s : St) : StOK s s := ⟨List.Subset.refl _, rfl⟩

theorem StOK.trans {a b c : St} (h1 : StOK a b) (h2 : StOK b c) : StOK a c :=
  ⟨h1.1.trans h2.1, h2.2.trans h1.2⟩

theorem StOK.add (s : St) (r : Nat) : StOK s (s.addProcessed r) := by
  refine ⟨?_, rfl⟩
  unfold St.addProcessed
  dsimp only
  split
  · exact List.Subset.refl _
  · exact List.subset_cons_self r _

theorem addProcessed_contains_self (s : St) (r : Nat) :
    (s.addProcessed r).processed.contains r = true := by
  unfold St.addProcessed
  dsimp only
  split
  · assumption
  · simp

theorem StOK.keep {a b : St} (h : StOK a b) {r : Nat}
    (hr : a.processed.contains r = true) : b.processed.contains r = true := by
  have h1 : r ∈ a.processed := by simpa using hr
  simpa using h.1 h1

theorem foldlAdd_stOK (cells : List Node) (s : St) :
    StOK s (cells.foldl (fun s c => s.addProcessed c.refOf) s) := by
  induction cells generalizing s with
  | nil => exact StOK.refl s
  | cons c cs ih => exact (StOK.add s c.refOf).trans (ih _)

theorem collectRows_stOK (rows : List Node) (s : St) : StOK s (collectRows rows s).2 := by
  induction rows generalizing s with
  | nil => exact StOK.refl s
  | cons tr rest ih =>
    unfold collectRows
    dsimp only
    split
    · exact ih s
    · exact ((StOK.add s tr.refOf).trans (foldlAdd_stOK (rowCells tr) _)).trans (ih _)

theorem processHistoryRows_stOK (rows : List Node) (s : St) :
    StOK s (processHistoryRows rows s).2 := by
  induction rows generalizing s with
  | nil => exact StOK.refl s
  | cons tr rest ih =>
    unfold processHistoryRows
    dsimp only
    split
    · exact ih s
    · split
      · exact ih s
      · exact (StOK.add s tr.refOf).trans (ih _)

theorem processHistoryTable_stOK (t : Node) (s : St) : StOK s (processHistoryTable t s).2 := by
  unfold processHistoryTable
  dsimp only
  split
  · exact StOK.refl s
  · exact processHistoryRows_stOK _ s

theorem processStandardTable_stOK (anc : List Node) (t : Node) (s : St) :
    StOK s (processStandardTable anc t s).2 := by
  unfold processStandardTable
  dsimp only
  split
  · exact StOK.refl s
  · split
    · exact collectRows_stOK _ s
    · exact collectRows_stOK _ s



/-! ## The invariant across the mutual dispatcher block -/

theorem StOK.setIds {a b : St} (h : StOK a b) {ids' : List (Nat × String)}
    (he : ids' = b.ids) : StOK a { b with ids := ids' } :=
  ⟨h.1, by rw [he, h.2]⟩

theorem getElementByIdPath_found {ids : List (Nat × String)} {doc : Node} {tid : String}
    {p : Node × List Node} (h : getElementByIdPath ids doc tid = some p) :
    currentId ids p.1 = tid ∧ tid ≠ "" := by
  unfold getElementByIdPath at h
  split at h
  · exact absurd h (by simp)
  · rename_i hne
    have := List.find?_some h
    exact ⟨by simpa using this, hne⟩

theorem plResolveHref_stOK (doc : Node) (st1 : St) (href0 text : String) :
    StOK st1 (plResolveHref doc st1 href0 text).2 := by
  unfold plResolveHref
  dsimp only
  split
  · split
    · rename_i tgt tgtAnc heq
      split
      · exact StOK.refl st1
      · dsimp only
        split
        · rename_i hid
          have hfound := getElementByIdPath_found heq
          rw [hid] at hfound
          exact absurd hfound.1.symm hfound.2
        · exact StOK.refl st1
    · exact StOK.refl st1
  · exact StOK.refl st1

set_option maxHeartbeats 3000000 in
theorem runStOK : ∀ fuel : Nat,
    (∀ doc anc el st path, StOK st (processElementContent fuel doc anc el st path).2) ∧
    (∀ doc anc el st path, StOK st (pecDispatch fuel doc anc el st path).2) ∧
    (∀ doc anc kids st path, StOK st (pecKids fuel doc anc kids st path).2) ∧
    (∀ doc anc lis st path, StOK st (pecULItems fuel doc anc lis st path).2) ∧
    (∀ doc anc lis st path i, StOK st (pecOLItems fuel doc anc lis st path i).2) ∧
    (∀ doc anc dv st path, StOK st (processDiv fuel doc anc dv st path).2) ∧
    (∀ doc anc pd st path, StOK st (processPanel fuel doc anc pd st path).2) ∧
    (∀ doc anc kids sk st path, StOK st (panelKids fuel doc anc kids sk st path).2) ∧
    (∀ doc anc ld st path, StOK st (processLayout fuel doc anc ld st path).2) ∧
    (∀ doc anc t st path, StOK st (processTable fuel doc anc t st path).2) ∧
    (∀ doc anc t st path, StOK st (processLayoutTableContent fuel doc anc t st path).2) ∧
    (∀ doc rows st path, StOK st (ltcRows fuel doc rows st path).2) ∧
    (∀ doc cells ca st path, StOK st (ltcCells fuel doc cells ca st path).2) ∧
    (∀ doc anc t st path, StOK st (processTableAsSections fuel doc anc t st path).2) ∧
    (∀ doc rows st path, StOK st (ptasRows fuel doc rows st path).2) ∧
    (∀ doc cells ra st path, StOK st (ptasBodyCells fuel doc cells ra st path).2) ∧
    (∀ doc anc kids bp ids path, (ptasCellKids fuel doc anc kids bp ids path).2 = ids) ∧
    (∀ doc anc lk st path, StOK st (processLink fuel doc anc lk st path).2) ∧
    (∀ doc lk anc kids st path, StOK st (plKids fuel doc lk anc kids st path).2) := by
  intro fuel
  induction fuel with
  | zero =>
    refine ⟨?_, ?_, ?_, ?_, ?_, ?_, ?_, ?_, ?_, ?_, ?_, ?_, ?_, ?_, ?_, ?_, ?_, ?_, ?_⟩ <;>
      intros <;>
      first
        | (exact StOK.refl _)
        | rfl
  | succ f ih =>
    obtain ⟨ihPEC, ihDisp, ihKids, ihUL, ihOL, ihDiv, ihPanel, ihPanelKids, ihLayout, ihTable,
      ihLTC, ihLTCRows, ihLTCCells, ihPTAS, ihPTASRows, ihPTASBody, ihPTASKids,
      ihLink, ihPLKids⟩ := ih
    refine ⟨?_, ?_, ?_, ?_, ?_, ?_, ?_, ?_, ?_, ?_, ?_, ?_, ?_, ?_, ?_, ?_, ?_, ?_, ?_⟩
    -- processElementContent
    · intro doc anc el st path
      cases el with
      | text s => exact StOK.refl st
      | comment s => exact StOK.refl st
      | elem r tag attrs kids =>
        unfold processElementContent
        dsimp only
        split <;> split
        · exact StOK.add st r
        · split
          · exact StOK.refl st
          · exact (StOK.add st r).trans (ihDisp _ _ _ _ _)
        · exact StOK.add st r
        · split
          · exact StOK.refl st
          · exact (StOK.add st r).trans (ihDisp _ _ _ _ _)
    -- pecDispatch
    · intro doc anc el st path
      unfold pecDispatch
      cases h : tagKind (toUpperStr el.tagOf) <;> simp only [h]
      case divK => exact ihDiv _ _ _ _ _
      case tableK => exact ihTable _ _ _ _ _
      case pK => exact ihKids _ _ _ _ _
      case headingK => exact ihKids _ _ _ _ _
      case ulK => exact ihUL _ _ _ _ _
      case olK => exact ihOL _ _ _ _ _ _
      case liK => exact ihKids _ _ _ _ _
      case aK => exact ihLink _ _ _ _ _
      case imgK => exact StOK.refl st
      case strongK => exact ihKids _ _ _ _ _
      case emK => exact ihKids _ _ _ _ _
      case codeK => exact StOK.refl st
      case preK => exact StOK.refl st
      case brK => exact StOK.refl st
      case hrK => exact StOK.refl st
      case spanK =>
        split
        · exact ihKids _ _ _ _ _
        · split
          · exact StOK.refl st
          · exact ihKids _ _ _ _ _
      case otherK => exact ihKids _ _ _ _ _
    -- pecKids
    · intro doc anc kids st path
      cases kids with
      | nil => exact StOK.refl st
      | cons c cs =>
        unfold pecKids
        exact (ihPEC _ _ _ _ _).trans (ihKids _ _ _ _ _)
    -- pecULItems
    · intro doc anc lis st path
      cases lis with
      | nil => exact StOK.refl st
      | cons c cs =>
        unfold pecULItems
        dsimp only
        split
        · exact (ihPEC _ _ _ _ _).trans (ihUL _ _ _ _ _)
        · exact ihUL _ _ _ _ _
    -- pecOLItems
    · intro doc anc lis st path i
      cases lis with
      | nil => exact StOK.refl st
      | cons c cs =>
        unfold pecOLItems
        dsimp only
        split
        · exact (ihPEC _ _ _ _ _).trans (ihOL _ _ _ _ _ _)
        · exact ihOL _ _ _ _ _ _
    -- processDiv
    · intro doc anc dv st path
      unfold processDiv
      dsimp only
      split
      · exact ihKids _ _ _ _ _
      · split
        · exact ihKids _ _ _ _ _
        · split
          · exact ihPanel _ _ _ _ _
          · split
            · exact ihLayout _ _ _ _ _
            · exact ihKids _ _ _ _ _
    -- processPanel
    · intro doc anc pd st path
      unfold processPanel
      rcases h1 : firstDesc anc pd (fun n =>
        n.classContains "panelHeader" || n.classContains "panel-header" ||
        n.classContains "aui-message-header") with _ | ⟨t, tAnc⟩ <;>
      rcases h2 : firstDesc anc pd (fun n =>
        n.classContains "panelContent" || n.classContains "panel-body" ||
        n.classContains "aui-message-content") with _ | ⟨c, cAnc⟩ <;>
      simp only [h1, h2]
      · exact ihPanelKids _ _ _ _ _ _
      · exact ihPanelKids _ _ _ _ _ _
      · exact (ihKids _ _ _ _ _).trans (ihPanelKids _ _ _ _ _ _)
      · exact (ihKids _ _ _ _ _).trans (ihPanelKids _ _ _ _ _ _)
    -- panelKids
    · intro doc anc kids sk st path
      cases kids with
      | nil => exact StOK.refl st
      | cons c cs =>
        unfold panelKids
        dsimp only
        split
        · exact ihPanelKids _ _ _ _ _ _
        · exact (ihPEC _ _ _ _ _).trans (ihPanelKids _ _ _ _ _ _)
    -- processLayout
    · intro doc anc ld st path
      unfold processLayout
      exact ihKids _ _ _ _ _
    -- processTable
    · intro doc anc t st path
      unfold processTable
      dsimp only
      split
      · exact processHistoryTable_stOK _ _
      · split
        · exact ihLTC _ _ _ _ _
        · split
          · exact ihPTAS _ _ _ _ _
          · exact processStandardTable_stOK _ _ _
    -- processLayoutTableContent
    · intro doc anc t st path
      unfold processLayoutTableContent
      exact ihLTCRows _ _ _ _
    -- ltcRows
    · intro doc rows st path
      cases rows with
      | nil => exact StOK.refl st
      | cons rw rest =>
        unfold ltcRows
        exact (ihLTCCells _ _ _ _ _).trans (ihLTCRows _ _ _ _)
    -- ltcCells
    · intro doc cells ca st path
      cases cells with
      | nil => exact StOK.refl st
      | cons td rest =>
        unfold ltcCells
        exact (ihKids _ _ _ _ _).trans (ihLTCCells _ _ _ _ _)
    -- processTableAsSections
    · intro doc anc t st path
      unfold processTableAsSections
      exact ihPTASRows _ _ _ _
    -- ptasRows
    · intro doc rows st path
      cases rows with
      | nil => exact StOK.refl st
      | cons rw rest =>
        unfold ptasRows
        dsimp only
        split
        · exact ihPTASRows _ _ _ _
        · split
          · exact (StOK.add st _).trans (ihPTASRows _ _ _ _)
          · exact ((StOK.setIds (StOK.add st _) (ihPTASKids _ _ _ _ _ _)).trans
              (ihPTASBody _ _ _ _ _)).trans (ihPTASRows _ _ _ _)
    -- ptasBodyCells
    · intro doc cells ra st path
      cases cells with
      | nil => exact StOK.refl st
      | cons c cs =>
        unfold ptasBodyCells
        dsimp only
        split
        · exact ihPTASBody _ _ _ _ _
        · have hk := ihPTASKids doc (c :: ra) c.childrenOf st.processed st.ids
            (path ++ " > SECTION_CONTENT")
          have h1 : StOK st (St.mk st.processed
              (ptasCellKids f doc (c :: ra) c.childrenOf st.processed st.ids
                (path ++ " > SECTION_CONTENT")).2) := ⟨List.Subset.refl _, hk⟩
          exact h1.trans (ihPTASBody doc cs ra _ path)
    -- ptasCellKids
    · intro doc anc kids bp ids path
      cases kids with
      | nil => rfl
      | cons c cs =>
        unfold ptasCellKids
        dsimp only
        rw [ihPTASKids _ _ _ _ _ _]
        exact (ihPEC doc anc c (St.mk bp ids) path).2
    -- processLink
    · intro doc anc lk st path
      unfold processLink
      dsimp only
      exact (ihPLKids doc lk anc lk.childrenOf st
          (path ++ " > " ++ pathSeg st.ids "A" lk)).trans
        (plResolveHref_stOK doc
          (plKids f doc lk anc lk.childrenOf st
            (path ++ " > " ++ pathSeg st.ids "A" lk)).2
          ((lk.getAttr "href").getD "")
          (trimJS (plKids f doc lk anc lk.childrenOf st
            (path ++ " > " ++ pathSeg st.ids "A" lk)).1))
    -- plKids
    · intro doc lk anc kids st path
      cases kids with
      | nil => exact StOK.refl st
      | cons c cs =>
        unfold plKids
        dsimp only
        split
        · exact ihPLKids _ _ _ _ _ _
        · exact (ihPEC _ _ _ _ _).trans (ihPLKids _ _ _ _ _ _)

/-! ## Claim C10: `safeTableCellContent` renders cell text table-safe -/

theorem jsWs_ne_backslash {c : Char} (h : jsWs c = true) : c ≠ '\\' := by
  intro he
  subst he
  simp [jsWs] at h

theorem replCharL_nl_no_newline (l : List Char) :
    '\n' ∉ replCharL '\n' [' '] l := by
  induction l with
  | nil => simp [replCharL]
  | cons d ds ih =>
    unfold replCharL
    by_cases hd : d = '\n' <;> simp [hd, ih]
    intro he
    exact hd he.symm

theorem replCharL_esc_no_newline (l : List Char) (h : '\n' ∉ l) :
    '\n' ∉ replCharL '|' ['\\', '|'] l := by
  induction l with
  | nil => simp [replCharL]
  | cons d ds ih =>
    unfold replCharL
    have hd : d ≠ '\n' := fun he => h (he ▸ List.mem_cons_self d ds)
    have hds : '\n' ∉ ds := fun he => h (List.mem_cons_of_mem d he)
    by_cases hp : d = '|' <;> simp [hp, ih hds]
    intro he
    exact hd he.symm

theorem pipesOK_escape (l : List Char) : ∀ p, pipesOK p (replCharL '|' ['\\', '|'] l) = true := by
  induction l with
  | nil => intro p; rfl
  | cons d ds ih =>
    intro p
    by_cases hd : d = '|'
    · subst hd
      simp only [replCharL, if_pos rfl, List.cons_append, List.nil_append, pipesOK]
      simp [ih]
    · simp only [replCharL, if_neg hd, List.cons_append, List.nil_append, pipesOK]
      simp [hd, ih]

theorem pipesOK_shift {c : Char} (hc : c ≠ '\\') (l : List Char) :
    pipesOK (some c) l = pipesOK none l := by
  cases l with
  | nil => rfl
  | cons e es => simp [pipesOK, hc]

theorem pipesOK_dropWhile_ws (l : List Char) (h : pipesOK none l = true) :
    pipesOK none (l.dropWhile jsWs) = true := by
  induction l with
  | nil => simpa using h
  | cons c cs ih =>
    rw [List.dropWhile_cons]
    simp only [pipesOK, Bool.and_eq_true] at h
    by_cases hw : jsWs c = true
    · simp only [hw, if_pos rfl]
      refine ih ?_
      rw [← pipesOK_shift (jsWs_ne_backslash hw)]
      exact h.2
    · simp only [hw]
      simp only [pipesOK, Bool.and_eq_true]
      exact h

theorem pipesOK_append_left (l r : List Char) : ∀ p, pipesOK p (l ++ r) = true →
    pipesOK p l = true := by
  induction l with
  | nil => intro p _; rfl
  | cons c cs ih =>
    intro p h
    simp only [List.cons_append, pipesOK, Bool.and_eq_true] at h
    simp only [pipesOK, Bool.and_eq_true]
    exact ⟨h.1, ih _ h.2⟩

theorem dropTrailing_decomp (q : Char → Bool) (l : List Char) :
    l = dropTrailing q l ++ (l.reverse.takeWhile q).reverse := by
  unfold dropTrailing
  rw [← List.reverse_append, List.takeWhile_append_dropWhile, List.reverse_reverse]

theorem pipesOK_dropTrailing (q : Char → Bool) (l : List Char) (p : Option Char)
    (h : pipesOK p l = true) : pipesOK p (dropTrailing q l) = true := by
  refine pipesOK_append_left _ ((l.reverse.takeWhile q).reverse) p ?_
  rw [← dropTrailing_decomp]
  exact h

theorem mem_dropTrailing {c : Char} {q : Char → Bool} {l : List Char}
    (h : c ∈ dropTrailing q l) : c ∈ l := by
  conv => rw [dropTrailing_decomp q l]
  exact List.mem_append_left _ h

/-- C10: for every input string, `safeTableCellContent` returns a string with
no newline character in which every pipe is immediately preceded by a
backslash, and returns a single space on the empty input. -/
theorem safeTableCellContent_invariants (s : String) :
    '\n' ∉ (safeTableCellContent s).toList ∧
    pipesOK none (safeTableCellContent s).toList = true ∧
    (s = "" → safeTableCellContent s = " ") := by
  by_cases hs : s = ""
  · subst hs
    refine ⟨by decide, by decide, fun _ => rfl⟩
  · unfold safeTableCellContent
    rw [if_neg hs]
    dsimp only
    refine ⟨?_, ?_, fun he => absurd he hs⟩
    · intro hmem
      have h1 : '\n' ∈ (replChar '|' "\\|" (replChar '\n' " " (trimJS s))).toList.dropWhile jsWs :=
        mem_dropTrailing hmem
      have h2 : '\n' ∈ (replChar '|' "\\|" (replChar '\n' " " (trimJS s))).toList :=
        (List.dropWhile_sublist _).mem h1
      exact replCharL_esc_no_newline _ (replCharL_nl_no_newline _) h2
    · refine pipesOK_dropTrailing _ _ _ ?_
      refine pipesOK_dropWhile_ws _ ?_
      exact pipesOK_escape _ none

/-- C10 witness: the invariants evaluated at a concrete cell content and the
empty string. -/
theorem safeTableCellContent_invariants_witness :
    pipesOK none (safeTableCellContent "a|b\nc").toList = true ∧
    safeTableCellContent "" = " " :=
  ⟨(safeTableCellContent_invariants "a|b\nc").2.1,
   (safeTableCellContent_invariants "").2.2 rfl⟩

/-! ## Claim C5: the drop predicate -/

/-- C5 counterexample: a plain `div` whose traversal scope (`parentPath`)
does not contain the main-content root is NOT dropped — `shouldBeIgnored`
returns `false`, not `true`, so the scope clause of the claim is wrong
(both branches of the scope check fall through to `false`). -/
theorem shouldBeIgnored_scope_counterexample :
    shouldBeIgnored [] (.elem 0 "DIV" [] []) "ROOT > DIV" "ROOT" = false := by
  decide

/-- C5 (amended): `shouldBeIgnored` returns `true` exactly when one of the
listed node-local drop conditions holds (tag-less or comment node, denied
tag, `aria-hidden="true"`, hidden inline style, denylisted class, denylisted
current id); the traversal-scope argument never affects the result. -/
theorem shouldBeIgnored_eq_dropConditions (ids : List (Nat × String)) (el : Node)
    (currentPath parentPath : String) :
    shouldBeIgnored ids el currentPath parentPath = dropConditions ids el := by
  unfold shouldBeIgnored dropConditions
  repeat' split <;> simp_all [List.any_eq, Bool.or_assoc]

/-! ## Claim C9: history rows with fewer than 3 cells are skipped -/

/-- C9: removing a row with fewer than 3 `td` cells from the row list leaves
the output of the history data-row loop (markdown and state) unchanged:
such a row contributes no output row. -/
theorem processHistoryRows_skips_short (pre post : List Node) (r : Node)
    (h : ((allDesc [] r (fun n => n.tagOf = "TD")).map (·.1)).length < 3) :
    ∀ st : St, processHistoryRows (pre ++ r :: post) st = processHistoryRows (pre ++ post) st := by
  induction pre with
  | nil =>
    intro st
    simp only [List.nil_append]
    rw [processHistoryRows]
    dsimp only
    by_cases hc : st.processed.contains r.refOf = true
    · rw [if_pos hc]
    · rw [if_neg hc, if_pos h]
  | cons p pre' ih =>
    intro st
    simp only [List.cons_append]
    rw [processHistoryRows, processHistoryRows]
    dsimp only
    simp only [ih]

/-- C9 witness: a two-cell row between two three-cell rows is skipped. -/
theorem processHistoryRows_skips_short_witness :
    (((allDesc [] (Node.elem 20 "TR" []
        [.elem 21 "TD" [] [.text "x"], .elem 22 "TD" [] [.text "y"]])
        (fun n => n.tagOf = "TD")).map (·.1)).length < 3) ∧
    processHistoryRows
      [Node.elem 10 "TR" [] [.elem 11 "TD" [] [.text "1"], .elem 12 "TD" [] [.text "a"],
         .elem 13 "TD" [] [.text "b"]],
       Node.elem 20 "TR" []
        [.elem 21 "TD" [] [.text "x"], .elem 22 "TD" [] [.text "y"]],
       Node.elem 30 "TR" [] [.elem 31 "TD" [] [.text "2"], .elem 32 "TD" [] [.text "c"],
         .elem 33 "TD" [] [.text "d"]]]
      (St.mk [] []) =
    processHistoryRows
      [Node.elem 10 "TR" [] [.elem 11 "TD" [] [.text "1"], .elem 12 "TD" [] [.text "a"],
         .elem 13 "TD" [] [.text "b"]],
       Node.elem 30 "TR" [] [.elem 31 "TD" [] [.text "2"], .elem 32 "TD" [] [.text "c"],
         .elem 33 "TD" [] [.text "d"]]]
      (St.mk [] []) :=
  ⟨by decide,
   processHistoryRows_skips_short
     [Node.elem 10 "TR" [] [.elem 11 "TD" [] [.text "1"], .elem 12 "TD" [] [.text "a"],
        .elem 13 "TD" [] [.text "b"]]]
     [Node.elem 30 "TR" [] [.elem 31 "TD" [] [.text "2"], .elem 32 "TD" [] [.text "c"],
        .elem 33 "TD" [] [.text "d"]]]
     (Node.elem 20 "TR" [] [.elem 21 "TD" [] [.text "x"], .elem 22 "TD" [] [.text "y"]])
     (by decide) (St.mk [] [])⟩

/-! ## Claim C3: the cleanup pipeline is not idempotent -/

set_option maxRecDepth 100000 in
/-- C3 (code bug): the cleanup pipeline is NOT idempotent.  The
missing-space heading fix (`replace(/^(#+)([^\s]+)/gm, "$1 $2")` with the
greedy `#+` backtracking one step so that `[^\s]+` can match) inserts a `#`
on a heading that already has a space: `"#Apple"` first becomes
`"# Apple"`, and a second application turns it into `"## Apple"`. -/
theorem cleanupPipeline_not_idempotent :
    cleanupPipeline "#Apple" = "# Apple" ∧
    cleanupPipeline (cleanupPipeline "#Apple") = "## Apple" ∧
    cleanupPipeline (cleanupPipeline "#Apple") ≠ cleanupPipeline "#Apple" := by
  have h1 : cleanupPipeline "#Apple" = "# Apple" := by decide
  have h2 : cleanupPipeline "# Apple" = "## Apple" := by decide
  refine ⟨h1, ?_, ?_⟩
  · rw [h1]; exact h2
  · rw [h1, h2]; decide

/-! ## Claim C1: the processed-once invariant -/

theorem pec_second_visit (fuel : Nat) (doc : Node) (anc : List Node)
    (st : St) (path : String) (r : Nat) (tag : String)
    (attrs : List (String × String)) (kids : List Node)
    (h : st.processed.contains r = true) :
    (processElementContent fuel doc anc (.elem r tag attrs kids) st path).1 = "" := by
  cases fuel with
  | zero => rfl
  | succ f =>
    unfold processElementContent
    dsimp only
    split <;> split <;> rfl

theorem pec_marks_processed (fuel : Nat) (doc : Node) (anc : List Node)
    (st : St) (path : String) (r : Nat) (tag : String)
    (attrs : List (String × String)) (kids : List Node) :
    st.processed.contains r = true ∨
    (processElementContent (fuel+1) doc anc (.elem r tag attrs kids) st path).2.processed.contains r
      = true := by
  by_cases h : st.processed.contains r = true
  · exact Or.inl h
  · refine Or.inr ?_
    unfold processElementContent
    dsimp only
    split <;> split
    · exact addProcessed_contains_self st r
    · exact ((runStOK fuel).2.1 _ _ _ _ _).keep (addProcessed_contains_self st r)
    · exact addProcessed_contains_self st r
    · exact ((runStOK fuel).2.1 _ _ _ _ _).keep (addProcessed_contains_self st r)

/-- C1: an element node not yet in the processed set is in the set of the
state returned by its first processing (it is added before its handler is
dispatched and the handlers only grow the set), and processing any element
node whose reference is already in the processed set yields the empty
markdown fragment — so a second visit of the same node, with any state that
extends the state its first visit returned, contributes nothing. -/
theorem processed_once_invariant (fuel f2 : Nat) (doc doc2 : Node)
    (anc anc2 : List Node) (st st2 : St) (path path2 : String) (r : Nat)
    (tag tag2 : String) (attrs attrs2 : List (String × String))
    (kids kids2 : List Node)
    (hfirst : st.processed.contains r = false)
    (hnext :
      (processElementContent (fuel+1) doc anc (.elem r tag attrs kids) st path).2.processed
        ⊆ st2.processed) :
    (processElementContent (fuel+1) doc anc (.elem r tag attrs kids) st path).2.processed.contains r
      = true ∧
    (processElementContent f2 doc2 anc2 (.elem r tag2 attrs2 kids2) st2 path2).1 = "" := by
  have hmark :
      (processElementContent (fuel+1) doc anc (.elem r tag attrs kids) st path).2.processed.contains r
        = true := by
    rcases pec_marks_processed fuel doc anc st path r tag attrs kids with h | h
    · rw [hfirst] at h
      exact absurd h (by simp)
    · exact h
  refine ⟨hmark, ?_⟩
  refine pec_second_visit f2 doc2 anc2 st2 path2 r tag2 attrs2 kids2 ?_
  have hmem : r ∈ (processElementContent (fuel+1) doc anc (.elem r tag attrs kids) st path).2.processed := by
    simpa using hmark
  simpa using hnext hmem

/-- C1 witness: a concrete `<h2>` paragraph node is marked processed by its
first visit, and a second visit on the returned state contributes the empty
fragment. -/
theorem processed_once_invariant_witness :
    ((St.mk [] []).processed.contains 1 = false) ∧
    ((processElementContent 4 (Node.elem 0 "BODY" []
        [.elem 1 "H2" [] [.text "Getting Started"]]) []
        (.elem 1 "H2" [] [.text "Getting Started"]) (St.mk [] []) "MAIN_CONTENT_ROOT").2.processed
        ⊆ (processElementContent 4 (Node.elem 0 "BODY" []
        [.elem 1 "H2" [] [.text "Getting Started"]]) []
        (.elem 1 "H2" [] [.text "Getting Started"]) (St.mk [] []) "MAIN_CONTENT_ROOT").2.processed) ∧
    ((processElementContent 4 (Node.elem 0 "BODY" []
        [.elem 1 "H2" [] [.text "Getting Started"]]) []
        (.elem 1 "H2" [] [.text "Getting Started"]) (St.mk [] []) "MAIN_CONTENT_ROOT").2.processed.contains 1
      = true) ∧
    ((processElementContent 4 (Node.elem 0 "BODY" []
        [.elem 1 "H2" [] [.text "Getting Started"]]) []
        (.elem 1 "H2" [] [.text "Getting Started"])
        ((processElementContent 4 (Node.elem 0 "BODY" []
          [.elem 1 "H2" [] [.text "Getting Started"]]) []
          (.elem 1 "H2" [] [.text "Getting Started"]) (St.mk [] []) "MAIN_CONTENT_ROOT").2)
        "MAIN_CONTENT_ROOT").1 = "") := by
  refine ⟨by decide, List.Subset.refl _, ?_⟩
  exact processed_once_invariant 3 4 (Node.elem 0 "BODY" []
    [.elem 1 "H2" [] [.text "Getting Started"]]) (Node.elem 0 "BODY" []
    [.elem 1 "H2" [] [.text "Getting Started"]]) [] []
    (St.mk [] []) _ "MAIN_CONTENT_ROOT" "MAIN_CONTENT_ROOT" 1 "H2" "H2" [] [] 
    [.text "Getting Started"] [.text "Getting Started"]
    (by decide) (List.Subset.refl _)

/-! ## Claim C8: conversion is deterministic across repeated runs -/

/-- C8: converting the same tree twice, each run with a fresh processed set
and the second run starting from the id-assignment table the first run left
on the tree, yields byte-identical markdown (the dispatcher never writes to
the id table, so the second run starts from the same table and the runs are
identical). -/
theorem conversion_deterministic (fuel : Nat) (doc : Node) (ids0 : List (Nat × String)) :
    (convertRun fuel doc ((convertRun fuel doc ids0).2)).1 = (convertRun fuel doc ids0).1 := by
  have hids : (pecKids fuel doc [doc] doc.childrenOf (St.mk [] ids0) "MAIN_CONTENT_ROOT").2.ids
      = ids0 :=
    ((runStOK fuel).2.2.1 doc [doc] doc.childrenOf (St.mk [] ids0) "MAIN_CONTENT_ROOT").2
  unfold convertRun
  dsimp only
  rw [hids]

/-! ## Claim C4: heading emission by the dispatcher -/

set_option maxRecDepth 100000 in
/-- C4 counterexample: the dispatcher's heading case emits no anchor suffix
(`processHeader`, the only anchor producer, is not called by the dispatcher)
and does not suppress headings whose trimmed text is empty:
`<h2>Getting Started</h2>` yields `"## Getting Started\n\n"`, not the
claimed `"## Getting Started {#getting-started}\n\n"`, and an empty `<h2>`
yields `"## \n\n"`, not the empty fragment. -/
theorem heading_dispatch_counterexample :
    (processElementContent 4 (Node.elem 0 "BODY" [] [.elem 1 "H2" [] [.text "Getting Started"]]) []
      (.elem 1 "H2" [] [.text "Getting Started"]) (St.mk [] []) "MAIN_CONTENT_ROOT").1
      = "## Getting Started\n\n" ∧
    "## Getting Started\n\n" ≠ "## Getting Started \x7b#getting-started\x7d\n\n" ∧
    (processElementContent 4 (Node.elem 0 "BODY" [] [.elem 2 "H2" [] []]) []
      (.elem 2 "H2" [] []) (St.mk [] []) "MAIN_CONTENT_ROOT").1 = "## \n\n" ∧
    "## \n\n" ≠ "" :=
  ⟨by decide, by decide, by decide, by decide⟩

/-- C4 (amended): for every heading element (tag of kind `H1`-`H6`) that is
not dropped and not yet processed, the dispatcher emits `"#"` repeated
`level` times, a space, the trimmed recursive conversion of the children,
and a blank line — with no anchor suffix and no suppression of empty
headings. -/
theorem heading_emission (fuel : Nat) (doc : Node) (anc : List Node)
    (st : St) (path : String) (r : Nat) (tag : String)
    (attrs : List (String × String)) (kids : List Node)
    (hkind : tagKind (toUpperStr tag) = TagKind.headingK)
    (hig : shouldBeIgnored st.ids (Node.elem r tag attrs kids)
      (path ++ " > " ++ pathSeg st.ids (if tag = "" then "TEXT_NODE" else tag)
        (Node.elem r tag attrs kids)) path = false)
    (hc : st.processed.contains r = false) :
    (processElementContent (fuel+2) doc anc (.elem r tag attrs kids) st path).1 =
      String.mk (List.replicate (headingLevel (toUpperStr tag)) '#') ++ " " ++
      trimJS (pecKids fuel doc (Node.elem r tag attrs kids :: anc) kids
        (st.addProcessed r)
        (path ++ " > " ++ pathSeg st.ids (if tag = "" then "TEXT_NODE" else tag)
          (Node.elem r tag attrs kids))).1 ++ "\n\n" := by
  unfold processElementContent
  dsimp only
  simp only [hig, Bool.false_eq_true, if_false, hc]
  unfold pecDispatch
  dsimp only [Node.tagOf, Node.childrenOf]
  rw [hkind]

/-- C4 witness: the amended heading formula evaluated on
`<h2>Getting Started</h2>`. -/
theorem heading_emission_witness :
    tagKind (toUpperStr "H2") = TagKind.headingK ∧
    (processElementContent 4 (Node.elem 0 "BODY" [] [.elem 1 "H2" [] [.text "Getting Started"]]) []
      (.elem 1 "H2" [] [.text "Getting Started"]) (St.mk [] []) "MAIN_CONTENT_ROOT").1
      = "## Getting Started\n\n" :=
  ⟨rfl,
   (heading_emission 2 (Node.elem 0 "BODY" [] [.elem 1 "H2" [] [.text "Getting Started"]]) []
      (St.mk [] []) "MAIN_CONTENT_ROOT" 1 "H2" [] [.text "Getting Started"]
      rfl (by decide) (by decide)).trans (by decide)⟩

/-! ## Claim C7: the slug derivation -/

set_option maxRecDepth 100000 in
/-- C7 counterexample: `slugify` REMOVES non-word characters instead of
collapsing them to hyphens (`"a.b"` gives `"ab"`, the claim's algorithm
gives `"a-b"`), and it has no generic placeholder: text with no word
characters slugifies to the empty string. -/
theorem slugify_counterexample :
    slugify "a.b" = "ab" ∧
    slugClaimC7 "a.b" = "a-b" ∧
    slugify "a.b" ≠ slugClaimC7 "a.b" ∧
    slugify "..." = "" ∧
    slugClaimC7 "..." = "section" :=
  ⟨by decide, by decide, by decide, by decide, by decide⟩

theorem string_append_empty (s : String) : s ++ "" = s := by
  cases s with
  | mk d =>
    show String.mk (d ++ []) = String.mk d
    rw [List.append_nil]

theorem string_append_assoc (a b c : String) : a ++ b ++ c = a ++ (b ++ c) := by
  cases a with
  | mk da =>
    cases b with
    | mk db =>
      cases c with
      | mk dc =>
        show String.mk (da ++ db ++ dc) = String.mk (da ++ (db ++ dc))
        rw [List.append_assoc]

theorem currentId_cons_self (r : Nat) (s : String) (ids : List (Nat × String))
    (tag : String) (attrs : List (String × String)) (kids : List Node) :
    currentId ((r, s) :: ids) (.elem r tag attrs kids) = s := by
  simp [currentId, List.lookup]

theorem pecKids_single_text (f : Nat) (doc : Node) (anc : List Node) (s : String)
    (st : St) (path : String) :
    pecKids (f+2) doc anc [.text s] st path = (s ++ "", st) := rfl

/-- C7 (amended): for a heading whose current id is empty, `processHeader`
derives the slug with `slugify` (lower-cased text, non-word characters
removed — not collapsed to hyphens, whitespace runs to single hyphens,
leading/trailing hyphens trimmed, no placeholder), emits it as an
` {#slug}` anchor, and writes it back onto the node as its id; the id table
gains exactly the binding for this node. -/
theorem processHeader_writes_slugify (fuel : Nat) (doc : Node) (anc : List Node)
    (st : St) (path : String) (r : Nat) (tag : String)
    (attrs : List (String × String)) (s : String)
    (htxt : trimJS s ≠ "")
    (hid : currentId st.ids (Node.elem r tag attrs [.text s]) = "")
    (hslug : slugify (trimJS s) ≠ "") :
    processHeader (fuel+2) doc anc (.elem r tag attrs [.text s]) st path =
      (String.mk (List.replicate (headingLevel tag) '#') ++ " " ++ trimJS s ++
        " \x7b#" ++ slugify (trimJS s) ++ "\x7d" ++ "\n\n",
       St.mk st.processed ((r, slugify (trimJS s)) :: st.ids)) := by
  unfold processHeader
  dsimp only [Node.tagOf, Node.childrenOf, Node.refOf]
  rw [pecKids_single_text]
  dsimp only
  simp only [string_append_empty]
  rw [if_neg htxt, hid]
  have hcur := currentId_cons_self r (slugify (trimJS s)) st.ids tag attrs [Node.text s]
  simp [hcur, hslug, string_append_assoc]

/-- C7 witness: the amended `processHeader` behaviour on
`<h2>Getting Started!</h2>` — the anchor is `getting-started` and the id is
written back. -/
theorem processHeader_writes_slugify_witness :
    processHeader 4 (Node.elem 0 "BODY" [] []) [] (.elem 1 "H2" [] [.text "Getting Started!"])
      (St.mk [] []) "MAIN_CONTENT_ROOT" =
      (String.mk (List.replicate (headingLevel "H2") '#') ++ " " ++ trimJS "Getting Started!" ++
        " \x7b#" ++ slugify (trimJS "Getting Started!") ++ "\x7d" ++ "\n\n",
       St.mk [] [(1, slugify (trimJS "Getting Started!"))]) :=
  processHeader_writes_slugify 2 (Node.elem 0 "BODY" [] []) [] (St.mk [] [])
    "MAIN_CONTENT_ROOT" 1 "H2" [] "Getting Started!" (by decide) (by decide) (by decide)

/-! ## Claim C2: the standard-table emission -/

set_option maxRecDepth 100000 in
/-- C2 counterexample: a standard table with a single row emits NO
header-separator row at all (the source guards the separator with
`rows.length > 1`), contradicting "emits the header-separator row exactly
once". -/
theorem standard_table_single_row_counterexample :
    (processStandardTable [] (.elem 1 "TABLE" [("border", "1")]
      [.elem 2 "TR" [] [.elem 3 "TD" [] [.text "a"], .elem 4 "TD" [] [.text "b"]]])
      (St.mk [] [])).1 = "\n| a | b |\n\n\n" ∧
    containsSub (processStandardTable [] (.elem 1 "TABLE" [("border", "1")]
      [.elem 2 "TR" [] [.elem 3 "TD" [] [.text "a"], .elem 4 "TD" [] [.text "b"]]])
      (St.mk [] [])).1 "---" = false :=
  ⟨by decide, by decide⟩

theorem jsMax_nonneg {acc cc : Option Int} {a : Int} (ha : ∀ x, acc = some x → 0 ≤ x)
    (h : jsMax acc cc = some a) : 0 ≤ a := by
  cases acc with
  | none => cases cc <;> simp [jsMax] at h
  | some x =>
    cases cc with
    | none => simp [jsMax] at h
    | some y =>
      simp only [jsMax, Option.some.injEq] at h
      have hx := ha x rfl
      omega

theorem tableMaxCols_foldl_nonneg (rows : List Node) :
    ∀ (acc : Option Int), (∀ x, acc = some x → 0 ≤ x) →
    ∀ k, rows.foldl (fun maxCols tr =>
        let colCount := (rowCells tr).foldl (fun acc cell =>
          jsAdd acc (parseIntJS (attrOr cell "colspan" "1"))) (some 0)
        jsMax maxCols colCount) acc = some k → 0 ≤ k := by
  induction rows with
  | nil =>
    intro acc ha k hk
    exact ha k hk
  | cons tr rest ih =>
    intro acc ha k hk
    rw [List.foldl_cons] at hk
    refine ih _ ?_ k hk
    intro x hx
    exact jsMax_nonneg ha hx

theorem padTruncRow_length (m : Int) (hm : 0 ≤ m) (cells : List String) :
    (padTruncRow (some m) cells).length = m.toNat := by
  unfold padTruncRow
  dsimp only
  by_cases hlt : (cells.length : Int) < m
  · rw [if_pos hlt]
    have hlen : cells.length ≤ m.toNat := by omega
    have hplen : (cells ++ List.replicate (m.toNat - cells.length) " ").length = m.toNat := by
      simp [List.length_append, List.length_replicate]
      omega
    rw [if_neg]
    · exact hplen
    · rw [hplen]
      omega
  · rw [if_neg hlt]
    by_cases hgt : (cells.length : Int) > m
    · rw [if_pos hgt]
      unfold jsSlice0
      dsimp only
      rw [if_neg (by omega)]
      have he : (min m (cells.length : Int)).toNat = m.toNat := by omega
      rw [he, List.length_take]
      omega
    · rw [if_neg hgt]
      omega

theorem emitRows_headerProcessed (m : Int) (total : Nat) :
    ∀ (rs : List (Bool × List String)) (i : Nat),
    emitRows (some m) total rs i true =
      some ((rs.filter (fun r => ! (r.2.all (fun c => c = "" || trimJS c = "")))).map
        (fun r => dataRowLine r.2)) := by
  intro rs
  induction rs with
  | nil => intro i; rfl
  | cons hd rest ih =>
    intro i
    obtain ⟨isH, cells⟩ := hd
    rw [emitRows]
    by_cases hb : (cells.all (fun c => c = "" || trimJS c = "")) = true
    · rw [if_pos hb, ih]
      simp [List.filter_cons, hb]
    · rw [if_neg hb]
      rw [if_neg (by simp)]
      rw [ih]
      simp [List.filter_cons, hb]

/-- C2 (amended): the column count of a `Standard` table is never negative;
every row is padded/truncated to exactly that count; and when the table has
MORE THAN ONE collected row and its first row is non-blank, the emission is
the first row's line, then the separator (exactly once, immediately after
that first row), then one line per remaining non-blank row.  A single-row
table gets no separator (see the counterexample). -/
theorem standard_table_emission (m : Int) (hm : 0 ≤ m) (total : Nat)
    (htotal : total > 1) (hd : Bool × List String) (rs : List (Bool × List String))
    (cells : List String)
    (hhd : (hd.2.all (fun c => c = "" || trimJS c = "")) = false) :
    ((∀ (rows : List Node) (k : Int), tableMaxCols rows = some k → 0 ≤ k) ∧
     (padTruncRow (some m) cells).length = m.toNat) ∧
    emitRows (some m) total (hd :: rs) 0 false =
      some (dataRowLine hd.2 :: sepRowLine m.toNat ::
        (rs.filter (fun r => ! (r.2.all (fun c => c = "" || trimJS c = "")))).map
          (fun r => dataRowLine r.2)) := by
  refine ⟨⟨?_, padTruncRow_length m hm cells⟩, ?_⟩
  · intro rows k hk
    exact tableMaxCols_foldl_nonneg rows (some 0) (by intro x hx; simp at hx; omega) k hk
  · obtain ⟨isH, cs⟩ := hd
    rw [emitRows]
    rw [if_neg (by simp [hhd])]
    rw [if_pos (by simp [htotal])]
    rw [emitRows_headerProcessed]
    rfl

/-- C2 witness: the amended emission formula on a concrete two-row table. -/
theorem standard_table_emission_witness :
    emitRows (some 2) 2 [(false, ["a", "b"]), (false, ["c", "d"])] 0 false =
      some (dataRowLine ["a", "b"] :: sepRowLine (Int.toNat 2) ::
        ([((false : Bool), ["c", "d"])].filter
          (fun r => ! (r.2.all (fun c => c = "" || trimJS c = "")))).map
          (fun r => dataRowLine r.2)) :=
  (standard_table_emission 2 (by decide) 2 (by decide) (false, ["a", "b"])
    [(false, ["c", "d"])] ["a", "b"] (by decide)).2

end CTM
